import Mathlib

/-! # hack/operatorhub: a shallow embedding of `main.go`

The release-packaging CLI reads installation manifests, extracts CRDs, the operator
ClusterRole rules and the validating webhook configurations, merges the metadata of the
config file into the CRDs and assembles the parameters handed to the templates.

Conventions of the embedding

* A Go `string` is a Lean `String`: strings reach the program through YAML/JSON decoding and
  are sequences of Unicode code points, stored in UTF-8.  Go compares strings byte by byte:
  `strLE` compares the UTF-8 bytes (`utf8Bytes`).
* A Go `[]byte` is a list of byte values (`Bytes`).
* A Go `map[string]*CRD` is an association list.  The order of the list stands for the order
  in which `range` visits the entries, which Go leaves unspecified: statements about a map
  are made for every order of its entries.
* A function that returns `(value, error)` returns an `Except`; a run-time panic (nil
  dereference, index out of range) is an error value of its own.
* Functions that write through a pointer return the state they leave behind.
* Library calls whose result the program only passes on (YAML decoding and marshalling, HTTP,
  the file system) are parameters of the functions that use them.
-/

namespace OperatorHub

deriving instance DecidableEq for Except

/-- Go `[]byte`: a sequence of byte values. -/
abbrev Bytes := List Nat

/-! ## Constants of `main.go` -/

def operatorName : String := "elastic-operator"

def yamlSeparator : String := "---\n"

def allInOneURL (version : String) : String :=
  "https://download.elastic.co/downloads/eck/" ++ version ++ "/all-in-one.yaml"

def crdManifestURL (version : String) : String :=
  "https://download.elastic.co/downloads/eck/" ++ version ++ "/crds.yaml"

def operatorManifestURL (version : String) : String :=
  "https://download.elastic.co/downloads/eck/" ++ version ++ "/operator.yaml"

def ImagesEndpoint (projectId : String) : String :=
  "https://catalog.redhat.com/api/containers/v1/projects/certification/id/" ++ projectId ++ "/images"

/-- UTF-8 encoding of one code point (Go `utf8.AppendRune`). -/
def utf8EncodeRune (r : Char) : Bytes :=
  let v := r.toNat
  if v < 0x80 then [v]
  else if v < 0x800 then [0xC0 + v / 64, 0x80 + v % 64]
  else if v < 0x10000 then [0xE0 + v / 4096, 0x80 + v / 64 % 64, 0x80 + v % 64]
  else [0xF0 + v / 262144, 0x80 + v / 4096 % 64, 0x80 + v / 64 % 64, 0x80 + v % 64]

/-- The bytes of a Go string: what `strings.NewReader` serves and what `<=` compares. -/
def utf8Bytes (s : String) : Bytes := s.data.flatMap utf8EncodeRune

/-! ## The Go library functions the program calls -/

/-- Go `unicode.IsSpace`: the Latin-1 switch, then the `White_Space` table. -/
def isSpace (r : Char) : Bool :=
  let c := r.toNat
  if c ≤ 0xFF then
    c == 0x09 || c == 0x0A || c == 0x0B || c == 0x0C || c == 0x0D || c == 0x20
      || c == 0x85 || c == 0xA0
  else
    c == 0x1680 || (0x2000 ≤ c && c ≤ 0x200A) || c == 0x2028 || c == 0x2029
      || c == 0x202F || c == 0x205F || c == 0x3000

/-- Go `strings.TrimSpace`: the string without its leading and trailing white space. -/
def TrimSpace (s : String) : String :=
  ⟨(s.data.dropWhile isSpace).rdropWhile isSpace⟩

/-- Go `strings.Split(s, sep)` for a separator of one character, on the characters of `s`:
the pieces between the separators, one more than there are separators. -/
def splitChars (sep : Char) : List Char → List (List Char)
  | [] => [[]]
  | c :: cs =>
    if c = sep then [] :: splitChars sep cs
    else
      match splitChars sep cs with
      | [] => [[c]]
      | piece :: pieces => (c :: piece) :: pieces

/-- Go `strings.Split(s, sep)` for a separator of one character. -/
def Split (s : String) (sep : Char) : List String :=
  (splitChars sep s.data).map String.mk

/-- Go `strings.Join(elems, sep)`. -/
def Join : List String → String → String
  | [], _ => ""
  | [a], _ => a
  | a :: b :: rest, sep => a ++ sep ++ Join (b :: rest) sep

/-- Lexicographic `<=` on byte sequences. -/
def leBytes : Bytes → Bytes → Bool
  | [], _ => true
  | _ :: _, [] => false
  | a :: as, b :: bs =>
    if a < b then true
    else if b < a then false
    else leBytes as bs

/-- Go `a <= b` on strings: the comparison of their bytes. -/
def strLE (a b : String) : Bool := leBytes (utf8Bytes a) (utf8Bytes b)

/-- Go `a < b` on strings. -/
def strLT (a b : String) : Bool := !strLE b a

/-- Go `sort.Slice(x, less)`.  The library sorts with pattern-defeating quicksort and, for
short slices, insertion sort; its contract is a permutation ordered by `less`.  The model is
insertion sort: on keys that are pairwise distinct the ordered permutation is unique. -/
def sortSlice {α : Type} (less : α → α → Bool) (x : List α) : List α :=
  x.insertionSort (fun a b => less a b = true)

/-! ## Kubernetes API types (the fields the program reads) -/

/-- Go `rbacv1.PolicyRule`. -/
structure PolicyRule where
  Verbs : List String
  APIGroups : List String
  Resources : List String
  ResourceNames : List String
  NonResourceURLs : List String
deriving DecidableEq, Repr

/-- Go `admissionv1.RuleWithOperations`. -/
structure RuleWithOperations where
  Operations : List String
  APIGroups : List String
  APIVersions : List String
  Resources : List String
  Scope : Option String
deriving DecidableEq, Repr

/-- Go `admissionv1.ServiceReference`. -/
structure ServiceReference where
  Namespace : String
  Name : String
  Path : Option String
  Port : Option Int
deriving DecidableEq, Repr

/-- Go `admissionv1.WebhookClientConfig`: `URL` and `Service` are pointers, either may be
nil. -/
structure WebhookClientConfig where
  URL : Option String
  Service : Option ServiceReference
  CABundle : Bytes
deriving DecidableEq, Repr

/-- Go `admissionv1.ValidatingWebhook`. -/
structure ValidatingWebhook where
  Name : String
  ClientConfig : WebhookClientConfig
  Rules : List RuleWithOperations
  FailurePolicy : Option String
  MatchPolicy : Option String
  SideEffects : Option String
  TimeoutSeconds : Option Int
  AdmissionReviewVersions : List String
deriving DecidableEq, Repr

/-- Go `admissionv1.ValidatingWebhookConfiguration`. -/
structure ValidatingWebhookConfiguration where
  Name : String
  Webhooks : List ValidatingWebhook
deriving DecidableEq, Repr

/-- The objects the universal deserializer can hand to `extractYAMLParts`: the four kinds of
the type switch, and every other registered kind. -/
inductive RuntimeObject where
  /-- `*apiextv1beta1.CustomResourceDefinition`, with `Spec.Version`. -/
  | crdV1beta1 (Name Group Kind Version : String)
  /-- `*apiextv1.CustomResourceDefinition`, with the names of `Spec.Versions`. -/
  | crdV1 (Name Group Kind : String) (Versions : List String)
  /-- `*rbacv1.ClusterRole`. -/
  | clusterRole (Name : String) (Rules : List PolicyRule)
  /-- `*admissionv1.ValidatingWebhookConfiguration`. -/
  | validatingWebhookConfiguration (obj : ValidatingWebhookConfiguration)
  /-- Any other kind of the scheme. -/
  | other (kind : String)
deriving DecidableEq, Repr

/-! ## Types of `main.go` -/

/-- One entry of `config.CRDs`. -/
structure ConfigCRD where
  Name : String
  DisplayName : String
  Description : String
deriving DecidableEq, Repr

/-- One entry of `config.Packages`. -/
structure ConfigPackage where
  OutputPath : String
  PackageName : String
  DistributionChannel : String
  OperatorRepo : String
  UbiOnly : Bool
  DigestPinning : Bool
deriving DecidableEq, Repr

structure config where
  NewVersion : String
  PrevVersion : String
  StackVersion : String
  CRDs : List ConfigCRD
  Packages : List ConfigPackage
deriving DecidableEq, Repr

structure CRD where
  Name : String
  Group : String
  Kind : String
  Version : String
  DisplayName : String
  Description : String
  Def : Bytes
deriving DecidableEq, Repr

structure WebhookDefinition where
  AdmissionReviewVersions : List String
  ContainerPort : Int
  DeploymentName : String
  FailurePolicy : Option String
  MatchPolicy : String
  GenerateName : String
  Rules : List RuleWithOperations
  SideEffects : Option String
  TargetPort : Int
  Type_ : String
  WebhookPath : Option String
deriving DecidableEq, Repr

/-- Go `yamlExtracts`.  `crds` is the map from CRD name to CRD, in the order `range` visits
it; the map owns its CRDs (each entry is allocated by `extractYAMLParts`). -/
structure yamlExtracts where
  crds : List (String × CRD)
  operatorRBAC : List PolicyRule
  operatorWebhooks : List ValidatingWebhookConfiguration
deriving DecidableEq, Repr

structure RenderParams where
  NewVersion : String
  ShortVersion : String
  PrevVersion : String
  StackVersion : String
  OperatorRepo : String
  OperatorRBAC : String
  AdditionalArgs : List String
  CRDList : List CRD
  OperatorWebhooks : String
  PackageName : String
  Tag : String
  UbiOnly : Bool
deriving DecidableEq, Repr

/-- A run-time panic of the Go program. -/
inductive Panic where
  | nilDereference
  | indexOutOfRange
deriving DecidableEq, Repr

/-- The ways `buildRenderParams` ends without render parameters, in the order of the
function body. -/
inductive BuildError where
  /-- "config file does not contain descriptions for some CRDs: [missing]". -/
  | missingDescriptions (missing : List String)
  /-- "failed to marshal operator webhook rules". -/
  | marshalWebhooks (cause : String)
  /-- "newVersion in config file appears to be invalid [newVersion]". -/
  | invalidVersion (newVersion : String)
  /-- "failed to marshal operator RBAC rules". -/
  | marshalRBAC (cause : String)
  | panic (p : Panic)
deriving DecidableEq, Repr

/-- Go `gyaml.Marshal` at the two types the program serialises. -/
structure Marshal where
  webhooks : List WebhookDefinition → Except String String
  rbac : List PolicyRule → Except String String

/-! ## Go maps as association lists -/

/-- Go `v, ok := m[k]`. -/
def mapLookup {β : Type} (m : List (String × β)) (k : String) : Option β :=
  (m.find? (fun p => p.1 = k)).map Prod.snd

/-- A write through the pointer stored under `k`: the entry of `k` now holds `v`. -/
def mapUpdate {β : Type} (m : List (String × β)) (k : String) (v : β) : List (String × β) :=
  m.map (fun p => if p.1 = k then (p.1, v) else p)

/-- Go `m[k] = v`: the entry of `k` is replaced, or a new entry is added. -/
def mapStore {β : Type} (m : List (String × β)) (k : String) (v : β) : List (String × β) :=
  match mapLookup m k with
  | some _ => mapUpdate m k v
  | none => m ++ [(k, v)]

/-! ## `buildRenderParams` -/

/-- Body of the first loop of `buildRenderParams`, for one entry `c` of `conf.CRDs`. -/
def applyConfigCRD (crds : List (String × CRD)) (c : ConfigCRD) : List (String × CRD) :=
  match mapLookup crds c.Name with
  | some crd =>
    mapUpdate crds c.Name { crd with DisplayName := c.DisplayName, Description := c.Description }
  | none => crds

/-- The test of the second loop: description or display name is blank. -/
def lacksMetadata (crd : CRD) : Bool :=
  TrimSpace crd.Description == "" || TrimSpace crd.DisplayName == ""

/-- Body of the second loop of `buildRenderParams`: the state is `(missing, crdList)`. -/
def collectCRD (acc : List String × List CRD) (entry : String × CRD) : List String × List CRD :=
  let crd := entry.2
  let missing := if lacksMetadata crd then acc.1 ++ [crd.Name] else acc.1
  (missing, acc.2 ++ [crd])

/-- Body of the loop of `validatingWebhookConfigurationToWebhookDefinition`.
`webhook.ClientConfig.Service` is a pointer: reading `.Path` through a nil pointer panics. -/
def appendWebhookDefinition (webhookDefinitions : List WebhookDefinition)
    (webhook : ValidatingWebhook) : Except Panic (List WebhookDefinition) :=
  match webhook.ClientConfig.Service with
  | none => .error .nilDereference
  | some service =>
    .ok (webhookDefinitions ++ [{
      Type_ := "ValidatingAdmissionWebhook"
      AdmissionReviewVersions := webhook.AdmissionReviewVersions
      TargetPort := 9443
      ContainerPort := 443
      DeploymentName := "elastic-operator"
      FailurePolicy := webhook.FailurePolicy
      MatchPolicy := "Exact"
      GenerateName := webhook.Name
      Rules := webhook.Rules
      SideEffects := webhook.SideEffects
      WebhookPath := service.Path }])

/-- Go `validatingWebhookConfigurationToWebhookDefinition`. -/
def validatingWebhookConfigurationToWebhookDefinition
    (webhookConfiguration : ValidatingWebhookConfiguration) :
    Except Panic (List WebhookDefinition) :=
  webhookConfiguration.Webhooks.foldlM appendWebhookDefinition []

/-- The part of `buildRenderParams` after the CRD checks, on the sorted `crdList`. -/
def assembleRenderParams (yaml : Marshal) (conf : config) (packageIndex : Nat)
    (extracts : yamlExtracts) (imageDigest : String) (crdList : List CRD) :
    Except BuildError RenderParams :=
  match extracts.operatorWebhooks.foldlM
      (fun webhookDefinitionList webhook =>
        (validatingWebhookConfigurationToWebhookDefinition webhook).map
          (fun defs => webhookDefinitionList ++ defs))
      ([] : List WebhookDefinition) with
  | .error p => .error (.panic p)
  | .ok webhookDefinitionList =>
  match yaml.webhooks webhookDefinitionList with
  | .error err => .error (.marshalWebhooks err)
  | .ok webhooks =>
  let versionParts := Split conf.NewVersion '.'
  if versionParts.length < 2 then .error (.invalidVersion conf.NewVersion) else
  match yaml.rbac extracts.operatorRBAC with
  | .error err => .error (.marshalRBAC err)
  | .ok rbac =>
  match conf.Packages[packageIndex]? with
  | none => .error (.panic .indexOutOfRange)
  | some pkg =>
  let additionalArgs : List String := if pkg.UbiOnly then ["--ubi-only"] else []
  let additionalArgs := additionalArgs ++ ["--distribution-channel=" ++ pkg.DistributionChannel]
  let tag := if pkg.DigestPinning then "@" ++ imageDigest else ":" ++ conf.NewVersion
  .ok {
    NewVersion := conf.NewVersion
    ShortVersion := Join (versionParts.take 2) "."
    PrevVersion := conf.PrevVersion
    StackVersion := conf.StackVersion
    OperatorRepo := pkg.OperatorRepo
    AdditionalArgs := additionalArgs
    CRDList := crdList
    OperatorWebhooks := webhooks
    OperatorRBAC := rbac
    PackageName := pkg.PackageName
    Tag := tag
    UbiOnly := pkg.UbiOnly }

/-- Go `buildRenderParams`.  The first loop writes the config metadata through the pointers
of `extracts.crds`, so the function returns its result together with the extract it leaves
behind. -/
def buildRenderParams (yaml : Marshal) (conf : config) (packageIndex : Nat)
    (extracts : yamlExtracts) (imageDigest : String) :
    Except BuildError RenderParams × yamlExtracts :=
  let extracts := { extracts with crds := conf.CRDs.foldl applyConfigCRD extracts.crds }
  let (missing, crdList) := extracts.crds.foldl collectCRD ([], [])
  if missing.length > 0 then (.error (.missingDescriptions missing), extracts) else
  let crdList := sortSlice (fun a b => strLE a.Name b.Name) crdList
  (assembleRenderParams yaml conf packageIndex extracts imageDigest crdList, extracts)

/-! ## `extractYAMLParts` -/

/-- The ways `extractYAMLParts` ends without an extract. -/
inductive ExtractError where
  /-- "failed to register apiextensions/v1beta1". -/
  | registerV1beta1 (cause : String)
  /-- "failed to register apiextensions/v1". -/
  | registerV1 (cause : String)
  /-- "failed to register admissionregistration/v1". -/
  | registerAdmissionV1 (cause : String)
  /-- "failed to read CRD YAML". -/
  | read (cause : String)
  /-- "failed to decode CRD YAML". -/
  | decode (cause : String)
  | panic (p : Panic)
deriving DecidableEq, Repr

/-- The scheme and its universal deserializer: the outcome of the three `AddToScheme` calls
and of `decoder.Decode` on the bytes of a document. -/
structure Scheme where
  addApiextV1beta1 : Except String Unit
  addApiextV1 : Except String Unit
  addAdmissionV1 : Except String Unit
  Decode : Bytes → Except String RuntimeObject

/-- Go `normalizeTrailingNewlines`: `bytes.TrimRight(yamlBytes, "\n")` followed by one
newline. -/
def normalizeTrailingNewlines (yamlBytes : Bytes) : Bytes :=
  let trimmed := yamlBytes.rdropWhile (fun b => b == 10)
  trimmed ++ [10]

/-- The type switch of `extractYAMLParts` on one decoded object. -/
def extractObject (parts : yamlExtracts) (yamlBytes : Bytes) :
    RuntimeObject → Except Panic yamlExtracts
  | .crdV1beta1 name group kind version =>
    .ok { parts with crds := mapStore parts.crds name {
      Name := name, Group := group, Kind := kind, Version := version
      DisplayName := "", Description := "", Def := yamlBytes } }
  | .crdV1 name group kind versions =>
    match versions[0]? with
    | none => .error .indexOutOfRange
    | some version =>
      .ok { parts with crds := mapStore parts.crds name {
        Name := name, Group := group, Kind := kind, Version := version
        DisplayName := "", Description := "", Def := yamlBytes } }
  | .clusterRole name rules =>
    if name = operatorName then .ok { parts with operatorRBAC := rules } else .ok parts
  | .validatingWebhookConfiguration obj =>
    .ok { parts with operatorWebhooks := parts.operatorWebhooks ++ [obj] }
  | .other _ => .ok parts

/-- The `for` loop of `extractYAMLParts`.  The list holds the results of the successive
`yamlReader.Read()` calls that come before the end of the stream. -/
def extractLoop (scheme : Scheme) :
    yamlExtracts → List (Except String Bytes) → Except ExtractError yamlExtracts
  | parts, [] => .ok parts
  | _, .error err :: _ => .error (.read err)
  | parts, .ok yamlBytes :: rest =>
    let yamlBytes := normalizeTrailingNewlines yamlBytes
    match scheme.Decode yamlBytes with
    | .error err => .error (.decode err)
    | .ok runtimeObj =>
      match extractObject parts yamlBytes runtimeObj with
      | .error p => .error (.panic p)
      | .ok parts => extractLoop scheme parts rest

/-- Go `extractYAMLParts`. -/
def extractYAMLParts (scheme : Scheme) (stream : List (Except String Bytes)) :
    Except ExtractError yamlExtracts :=
  match scheme.addApiextV1beta1 with
  | .error err => .error (.registerV1beta1 err)
  | .ok _ =>
  match scheme.addApiextV1 with
  | .error err => .error (.registerV1 err)
  | .ok _ =>
  match scheme.addAdmissionV1 with
  | .error err => .error (.registerAdmissionV1 err)
  | .ok _ =>
  extractLoop scheme { crds := [], operatorRBAC := [], operatorWebhooks := [] } stream

/-! ## `getImageDigest` -/

/-- One entry of `Images.Data`. -/
structure Image where
  DockerImageDigest : String
  Id : String
  CreationDate : String
deriving DecidableEq, Repr

structure Images where
  Data : List Image
deriving DecidableEq, Repr

/-- The answer of the catalog: status and the outcome of decoding the body as `Images`. -/
structure CatalogResponse where
  StatusCode : Nat
  Status : String
  Body : Except String Images

/-- The ways `getImageDigest` ends without a digest. -/
inductive DigestError where
  /-- `http.NewRequest` or `client.Do` failed. -/
  | request (cause : String)
  /-- "request error requestURL: status". -/
  | status (requestURL status : String)
  /-- The body is not the JSON of `Images`. -/
  | decode (cause : String)
  /-- "found n images with tag version in RedHat catalog while only one is expected". -/
  | foundImages (n : Nat) (version : String)
  /-- "no image with tag version in RedHat catalog". -/
  | noImage (version : String)
  /-- "image digest for version is empty". -/
  | emptyDigest (version : String)
deriving DecidableEq, Repr

/-- Go `getImageDigest`.  `client` sends the request (URL, API key, filter) and returns the
response or the transport error. -/
def getImageDigest (client : String → String → String → Except String CatalogResponse)
    (apiKey projectId version : String) : Except DigestError String :=
  let requestURL := ImagesEndpoint projectId
  let filter := "repositories.tags.name==" ++ version ++ ";deleted==false"
  match client requestURL apiKey filter with
  | .error err => .error (.request err)
  | .ok res =>
  if res.StatusCode ≠ 200 then .error (.status requestURL res.Status) else
  match res.Body with
  | .error err => .error (.decode err)
  | .ok images =>
  if images.Data.length > 1 then .error (.foundImages images.Data.length version) else
  if h : images.Data.length = 0 then .error (.noImage version) else
  let imageDigest := (images.Data.get ⟨0, Nat.pos_of_ne_zero h⟩).DockerImageDigest
  if imageDigest = "" then .error (.emptyDigest version) else
  .ok imageDigest

/-! ## `getInstallManifestStream` -/

/-- An HTTP response as `makeRequest` reads it. -/
structure HTTPResponse where
  StatusCode : Nat
  Status : String
  Body : Except String Bytes

/-- The errors of `makeRequest`; `errNotFound` is the sentinel the caller compares with. -/
inductive RequestError where
  | errNotFound
  | failed (url cause : String)
  | status (url status : String)
  | copy (cause : String)
deriving DecidableEq, Repr

/-- The ways `getInstallManifestStream` ends without a stream. -/
inductive StreamError where
  /-- "failed to open manifestPaths". -/
  | open_ (manifestPaths : List String) (cause : String)
  /-- An error of the all-in-one request, returned as it is. -/
  | request (err : RequestError)
  /-- "when getting url". -/
  | whenGetting (url : String) (err : RequestError)
deriving DecidableEq, Repr

/-- Go `makeRequest`; `get` performs the GET request within the timeout. -/
def makeRequest (get : String → Except String HTTPResponse) (url : String) :
    Except RequestError Bytes :=
  match get url with
  | .error err => .error (.failed url err)
  | .ok resp =>
    if resp.StatusCode = 404 then .error .errNotFound
    else if resp.StatusCode ≠ 200 then .error (.status url resp.Status)
    else
      match resp.Body with
      | .error err => .error (.copy err)
      | .ok buf => .ok buf

/-- Go `installManifestFromWeb`; the result is the content of the returned reader. -/
def installManifestFromWeb (get : String → Except String HTTPResponse) (version : String) :
    Except StreamError Bytes :=
  match makeRequest get (allInOneURL version) with
  | .error .errNotFound =>
    match makeRequest get (crdManifestURL version) with
    | .error err => .error (.whenGetting (crdManifestURL version) err)
    | .ok crds =>
      match makeRequest get (operatorManifestURL version) with
      | .error err => .error (.whenGetting (operatorManifestURL version) err)
      | .ok op => .ok ([crds, utf8Bytes yamlSeparator, op].flatten)
  | .error err => .error (.request err)
  | .ok buf => .ok buf

/-- Body of the loop of `getInstallManifestStream` over the paths: `rs` is the list of
readers, each given by the bytes it serves. -/
def openManifest (osOpen : String → Except String Bytes) (manifestPaths : List String)
    (rs : List Bytes) (p : String) : Except StreamError (List Bytes) :=
  match osOpen p with
  | .error err => .error (.open_ manifestPaths err)
  | .ok r =>
    let rs := rs ++ [r]
    .ok (rs ++ [utf8Bytes yamlSeparator])

/-- Go `getInstallManifestStream`; the result is the content of the returned reader, that is
what `io.MultiReader(rs...)` serves: the contents of the readers one after the other.
`osOpen` gives the content of a file that can be opened. -/
def getInstallManifestStream (osOpen : String → Except String Bytes)
    (get : String → Except String HTTPResponse) (conf : config) (manifestPaths : List String) :
    Except StreamError Bytes :=
  if manifestPaths.length = 0 then installManifestFromWeb get conf.NewVersion
  else
    match manifestPaths.foldlM (openManifest osOpen manifestPaths) [] with
    | .error err => .error err
    | .ok rs => .ok rs.flatten

/-! ## Notions of the specification -/

/-- The spec's "blank": empty or made of white space only. -/
def isBlank (s : String) : Bool := s.data.all isSpace

/-- The extract is keyed by name. -/
def KeyedByName (crds : List (String × CRD)) : Prop :=
  (crds.map Prod.fst).Nodup ∧ ∀ p ∈ crds, p.1 = p.2.Name

instance (crds : List (String × CRD)) : Decidable (KeyedByName crds) := by
  unfold KeyedByName; infer_instance

/-- The last entry of the config list with the given name. -/
def lastEntry (confCRDs : List ConfigCRD) (name : String) : Option ConfigCRD :=
  confCRDs.reverse.find? (fun c => c.Name = name)

/-- A CRD with the metadata of a config entry. -/
def withMetadata (c : ConfigCRD) (crd : CRD) : CRD :=
  { crd with DisplayName := c.DisplayName, Description := c.Description }

/-- What the first loop leaves in one entry of the map. -/
def mergedEntry (confCRDs : List ConfigCRD) (p : String × CRD) : String × CRD :=
  match lastEntry confCRDs p.1 with
  | some c => (p.1, withMetadata c p.2)
  | none => p

/-- The names of the CRDs of a map whose description or display name is blank, in the order
of the map. -/
def offenders (crds : List (String × CRD)) : List String :=
  ((crds.map Prod.snd).filter
    (fun crd => isBlank crd.Description || isBlank crd.DisplayName)).map CRD.Name

/-- The name under which the type switch of `extractYAMLParts` stores an object, if it
stores it as a CRD. -/
def crdName? : RuntimeObject → Option String
  | .crdV1beta1 name _ _ _ => some name
  | .crdV1 name _ _ _ => some name
  | _ => none

/-- The object a `Read` result decodes to, when it is read and decoded without error. -/
def decoded (scheme : Scheme) : Except String Bytes → Option RuntimeObject
  | .ok yamlBytes =>
    match scheme.Decode (normalizeTrailingNewlines yamlBytes) with
    | .ok obj => some obj
    | .error _ => none
  | .error _ => none

/-- The relation between a webhook and the OLM webhook definition made from it: the fixed
ports, match policy and deployment name, the fields copied through, and the path of the
service reference. -/
def DefinitionOf (webhook : ValidatingWebhook) (d : WebhookDefinition) : Prop :=
  d.TargetPort = 9443 ∧ d.ContainerPort = 443 ∧ d.MatchPolicy = "Exact" ∧
    d.DeploymentName = "elastic-operator" ∧
    d.FailurePolicy = webhook.FailurePolicy ∧ d.SideEffects = webhook.SideEffects ∧
    d.Rules = webhook.Rules ∧ d.AdmissionReviewVersions = webhook.AdmissionReviewVersions ∧
    ∃ service, webhook.ClientConfig.Service = some service ∧ d.WebhookPath = service.Path

/-- The rules of an object that is a ClusterRole named "elastic-operator". -/
def operatorRules? : RuntimeObject → Option (List PolicyRule)
  | .clusterRole name rules => if name = operatorName then some rules else none
  | _ => none

/-- The rule list of the last ClusterRole named "elastic-operator" among the objects, empty
when there is none. -/
def lastOperatorRules (objs : List RuntimeObject) : List PolicyRule :=
  ((objs.filterMap operatorRules?).getLast?).getD []

/-- The object is not a current-schema CRD with an empty list of versions. -/
def hasVersion : RuntimeObject → Bool
  | .crdV1 _ _ _ [] => false
  | _ => true

/-- What `buildRenderParams` with the config entries `confCRDs` leaves of an entry `p` of the
CRD map in the entry `q`: all but display name and description is kept; these two are those of
the last config entry of the name, if there is one, and kept otherwise. -/
def LeftBehind (confCRDs : List ConfigCRD) (p q : String × CRD) : Prop :=
  q.1 = p.1 ∧ q.2.Name = p.2.Name ∧ q.2.Group = p.2.Group ∧ q.2.Kind = p.2.Kind ∧
    q.2.Version = p.2.Version ∧ q.2.Def = p.2.Def ∧
    ((∀ c ∈ confCRDs, c.Name ≠ p.1) →
      q.2.DisplayName = p.2.DisplayName ∧ q.2.Description = p.2.Description) ∧
    (∀ c, lastEntry confCRDs p.1 = some c →
      q.2.DisplayName = c.DisplayName ∧ q.2.Description = c.Description)

/-! ## Examples -/

/-- A marshaller that always succeeds, for the examples. -/
def exampleMarshal : Marshal :=
  { webhooks := fun defs => .ok (toString defs.length)
    rbac := fun rules => .ok (toString rules.length) }

/-- An extract with the CRDs `b` and `a` as `extractYAMLParts` leaves them. -/
def exampleExtract : yamlExtracts :=
  { crds := [
      ("b", { Name := "b", Group := "g", Kind := "B", Version := "v1", DisplayName := "",
              Description := "", Def := [98, 10] }),
      ("a", { Name := "a", Group := "g", Kind := "A", Version := "v1", DisplayName := "",
              Description := "", Def := [97, 10] })]
    operatorRBAC := []
    operatorWebhooks := [] }

/-- A config that describes both CRDs of `exampleExtract`. -/
def exampleConfig (newVersion : String) : config :=
  { NewVersion := newVersion, PrevVersion := "1.1.0", StackVersion := "8.0.0"
    CRDs := [⟨"a", "A", "about a"⟩, ⟨"b", "B", "about b"⟩]
    Packages := [
      { OutputPath := "out", PackageName := "eck", DistributionChannel := "community",
        OperatorRepo := "repo", UbiOnly := false, DigestPinning := false },
      { OutputPath := "cert", PackageName := "eck-certified", DistributionChannel := "certified",
        OperatorRepo := "repo", UbiOnly := true, DigestPinning := true }] }

/-- A deserializer for the examples: the first byte of a document selects the object. -/
def exampleScheme : Scheme :=
  { addApiextV1beta1 := .ok ()
    addApiextV1 := .ok ()
    addAdmissionV1 := .ok ()
    Decode := fun yamlBytes =>
      match yamlBytes with
      | 97 :: _ => .ok (.crdV1beta1 "a" "g" "A" "v1")
      | 98 :: _ => .ok (.crdV1 "b" "g" "B" ["v1", "v1beta1"])
      | 99 :: _ => .ok (.crdV1 "a" "g2" "A2" ["v2"])
      | 101 :: _ => .ok (.crdV1 "e" "g" "E" [])
      | 114 :: _ => .ok (.clusterRole "elastic-operator" [⟨["get"], [""], ["pods"], [], []⟩])
      | 115 :: _ => .ok (.clusterRole "elastic-operator" [⟨["*"], ["apps"], ["deployments"], [], []⟩])
      | 111 :: _ => .ok (.clusterRole "elastic-operator-view" [⟨["list"], [""], ["nodes"], [], []⟩])
      | 100 :: _ => .ok (.other "Deployment")
      | _ => .error "no kind is registered" }

/-- The extract of `exampleExtract` after `buildRenderParams` with `exampleConfig`. -/
def exampleExtractMerged : yamlExtracts :=
  { crds := [
      ("b", { Name := "b", Group := "g", Kind := "B", Version := "v1", DisplayName := "B",
              Description := "about b", Def := [98, 10] }),
      ("a", { Name := "a", Group := "g", Kind := "A", Version := "v1", DisplayName := "A",
              Description := "about a", Def := [97, 10] })]
    operatorRBAC := []
    operatorWebhooks := [] }

/-- The render parameters of `exampleExtract` with `exampleConfig "1.2.3"`, package 0. -/
def exampleParams : RenderParams :=
  { NewVersion := "1.2.3", ShortVersion := "1.2", PrevVersion := "1.1.0", StackVersion := "8.0.0"
    OperatorRepo := "repo", OperatorRBAC := "0"
    AdditionalArgs := ["--distribution-channel=community"]
    CRDList := [
      { Name := "a", Group := "g", Kind := "A", Version := "v1", DisplayName := "A",
        Description := "about a", Def := [97, 10] },
      { Name := "b", Group := "g", Kind := "B", Version := "v1", DisplayName := "B",
        Description := "about b", Def := [98, 10] }]
    OperatorWebhooks := "0", PackageName := "eck", Tag := ":1.2.3", UbiOnly := false }

/-- The extract of the documents of `exampleExtract` read in another order, in which the
current-schema document of `a` comes last. -/
def exampleExtractOther : yamlExtracts :=
  { crds := [
      ("a", { Name := "a", Group := "g2", Kind := "A2", Version := "v2", DisplayName := "",
              Description := "", Def := [99, 10] }),
      ("b", { Name := "b", Group := "g", Kind := "B", Version := "v1", DisplayName := "",
              Description := "", Def := [98, 10] })]
    operatorRBAC := []
    operatorWebhooks := [] }

/-- The render parameters of `exampleExtractOther` with `exampleConfig "1.2.3"`, package 0. -/
def exampleParamsOther : RenderParams :=
  { exampleParams with
    CRDList := [
      { Name := "a", Group := "g2", Kind := "A2", Version := "v2", DisplayName := "A",
        Description := "about a", Def := [99, 10] },
      { Name := "b", Group := "g", Kind := "B", Version := "v1", DisplayName := "B",
        Description := "about b", Def := [98, 10] }] }

/-- A config that lists the CRD `a` twice, with different metadata. -/
def duplicateConfig : config :=
  { exampleConfig "1.2.3" with
    CRDs := [⟨"a", "First", "first text"⟩, ⟨"b", "B", "about b"⟩, ⟨"a", "Second", "second text"⟩] }

/-- A webhook served by the operator service, for the examples. -/
def exampleWebhook (name path : String) : ValidatingWebhook :=
  { Name := name
    ClientConfig := {
      URL := none
      Service := some { Namespace := "elastic-system", Name := "elastic-webhook-server",
                        Path := some path, Port := none }
      CABundle := [] }
    Rules := [⟨["CREATE", "UPDATE"], ["elasticsearch.k8s.elastic.co"], ["v1"],
      ["elasticsearches"], none⟩]
    FailurePolicy := some "Ignore"
    MatchPolicy := some "Equivalent"
    SideEffects := some "None"
    TimeoutSeconds := none
    AdmissionReviewVersions := ["v1", "v1beta1"] }

/-- A webhook reached by URL: its client config has no service reference. -/
def urlWebhook : ValidatingWebhook :=
  { exampleWebhook "url.k8s.elastic.co" "/validate" with
    ClientConfig := { URL := some "https://example.org/validate", Service := none, CABundle := [] } }

/-- A catalog that answers every request with status 200 and the given data list. -/
def exampleCatalog (data : List Image) :
    String → String → String → Except String CatalogResponse :=
  fun _ _ _ => .ok { StatusCode := 200, Status := "200 OK", Body := .ok { Data := data } }

/-- The render parameters of `exampleExtract` with `exampleConfig "1.2.3"`, package 1 (the
package with digest pinning) and the digest `sha256:0a1b`. -/
def exampleParamsPinned : RenderParams :=
  { exampleParams with
    AdditionalArgs := ["--ubi-only", "--distribution-channel=certified"]
    PackageName := "eck-certified", Tag := "@sha256:0a1b", UbiOnly := true }

/-- The documents of the example stream for the RBAC rule set. -/
def roleStream : List (Except String Bytes) :=
  [.ok [114], .ok [98, 10], .ok [115, 10, 10], .ok [111], .ok [100]]

/-- The objects `exampleScheme` decodes the documents of `roleStream` to. -/
def roleObjects : List RuntimeObject :=
  [.clusterRole "elastic-operator" [⟨["get"], [""], ["pods"], [], []⟩],
    .crdV1 "b" "g" "B" ["v1", "v1beta1"],
    .clusterRole "elastic-operator" [⟨["*"], ["apps"], ["deployments"], [], []⟩],
    .clusterRole "elastic-operator-view" [⟨["list"], [""], ["nodes"], [], []⟩],
    .other "Deployment"]

/-- The extract of `roleStream`. -/
def roleExtract : yamlExtracts :=
  { crds := [
      ("b", { Name := "b", Group := "g", Kind := "B", Version := "v1", DisplayName := "",
              Description := "", Def := [98, 10] })]
    operatorRBAC := [⟨["*"], ["apps"], ["deployments"], [], []⟩]
    operatorWebhooks := [] }

/-- A file system with the two manifests `crds.yaml` and `operator.yaml`. -/
def exampleFiles : String → Except String Bytes :=
  fun p =>
    if p = "crds.yaml" then .ok [97, 10]
    else if p = "operator.yaml" then .ok [114, 10]
    else .error "no such file or directory"

/-- A download service that is not reached. -/
def noNetwork : String → Except String HTTPResponse :=
  fun _ => .error "no network"

/-! # Theorems -/

/-! ## Lemmas on the model -/

theorem trimmed_eq_nil_iff (l : List Char) :
    (l.dropWhile isSpace).rdropWhile isSpace = [] ↔ ∀ c ∈ l, isSpace c = true := by
  constructor
  · intro h
    rw [List.rdropWhile_eq_nil_iff] at h
    by_cases hnil : l.dropWhile isSpace = []
    · exact List.dropWhile_eq_nil_iff.1 hnil
    · exfalso
      have hhead := List.head_dropWhile_not isSpace l hnil
      have hmem := List.head_mem hnil
      have := h _ hmem
      simp [this] at hhead
  · intro h
    have : l.dropWhile isSpace = [] := List.dropWhile_eq_nil_iff.2 h
    simp [this]

theorem TrimSpace_eq_empty (s : String) : (TrimSpace s == "") = isBlank s := by
  have h1 : (TrimSpace s = "") ↔ (∀ c ∈ s.data, isSpace c = true) := by
    rw [← trimmed_eq_nil_iff]
    unfold TrimSpace
    constructor
    · intro h
      simpa using congrArg String.data h
    · intro h
      rw [h]
  by_cases h : TrimSpace s = ""
  · have h2 := h1.1 h
    simp only [h, isBlank, beq_self_eq_true]
    exact (List.all_eq_true.2 h2).symm
  · have h2 : ¬ (∀ c ∈ s.data, isSpace c = true) := fun hh => h (h1.2 hh)
    have h3 : isBlank s = false := by
      simp only [isBlank]
      rw [Bool.eq_false_iff]
      intro h4
      exact h2 (List.all_eq_true.1 h4)
    simp [h, h3]

theorem lacksMetadata_eq (crd : CRD) :
    lacksMetadata crd = (isBlank crd.Description || isBlank crd.DisplayName) := by
  simp [lacksMetadata, TrimSpace_eq_empty]

theorem leBytes_total (a b : Bytes) : leBytes a b = true ∨ leBytes b a = true := by
  induction a generalizing b with
  | nil => simp [leBytes]
  | cons x xs ih =>
    cases b with
    | nil => simp [leBytes]
    | cons y ys =>
      simp only [leBytes]
      by_cases h1 : x < y
      · simp [h1]
      · by_cases h2 : y < x
        · simp [h2]
        · simp [h1, h2, ih ys]

theorem leBytes_antisymm (a b : Bytes) (h1 : leBytes a b = true) (h2 : leBytes b a = true) :
    a = b := by
  induction a generalizing b with
  | nil => cases b with
    | nil => rfl
    | cons y ys => simp [leBytes] at h2
  | cons x xs ih =>
    cases b with
    | nil => simp [leBytes] at h1
    | cons y ys =>
      simp only [leBytes] at h1 h2
      by_cases c1 : x < y
      · have c2 : ¬ y < x := by omega
        simp [c1, c2] at h2
      · by_cases c2 : y < x
        · simp [c1, c2] at h1
        · simp [c1, c2] at h1 h2
          have hxy : x = y := by omega
          rw [hxy, ih ys h1 h2]

theorem leBytes_trans (a b c : Bytes) (h1 : leBytes a b = true) (h2 : leBytes b c = true) :
    leBytes a c = true := by
  induction a generalizing b c with
  | nil => simp [leBytes]
  | cons x xs ih =>
    cases b with
    | nil => simp [leBytes] at h1
    | cons y ys =>
      cases c with
      | nil => simp [leBytes] at h2
      | cons z zs =>
        simp only [leBytes] at h1 h2 ⊢
        by_cases c1 : x < y
        · by_cases c3 : y < z
          · have : x < z := by omega
            simp [this]
          · by_cases c4 : z < y
            · simp [c3, c4] at h2
            · have : x < z := by omega
              simp [this]
        · by_cases c2 : y < x
          · simp [c1, c2] at h1
          · simp only [c1, c2, if_false] at h1
            by_cases c3 : y < z
            · have : x < z := by omega
              simp [this]
            · by_cases c4 : z < y
              · simp [c3, c4] at h2
              · simp only [c3, c4, if_false] at h2
                have e1 : ¬ x < z := by omega
                have e2 : ¬ z < x := by omega
                simp only [e1, e2, if_false]
                exact ih ys zs h1 h2

theorem utf8EncodeRune_ne_nil (r : Char) : utf8EncodeRune r ≠ [] := by
  unfold utf8EncodeRune
  simp only
  split_ifs <;> simp

theorem utf8EncodeRune_append_inj (c d : Char) (x y : Bytes)
    (h : utf8EncodeRune c ++ x = utf8EncodeRune d ++ y) : c = d ∧ x = y := by
  have key : c.toNat = d.toNat ∧ x = y := by
    unfold utf8EncodeRune at h
    simp only at h
    split_ifs at h <;> simp only [List.cons_append, List.nil_append, List.cons.injEq] at h <;>
      first
        | (exfalso; omega)
        | exact ⟨by omega, by tauto⟩
  refine ⟨?_, key.2⟩
  apply Char.ext
  apply UInt32.ext
  exact key.1

theorem utf8Bytes_injective (a b : String) (h : utf8Bytes a = utf8Bytes b) : a = b := by
  have key : ∀ l m : List Char, l.flatMap utf8EncodeRune = m.flatMap utf8EncodeRune → l = m := by
    intro l
    induction l with
    | nil =>
      intro m hm
      cases m with
      | nil => rfl
      | cons d ds =>
        exfalso
        simp only [List.flatMap_nil, List.flatMap_cons] at hm
        exact utf8EncodeRune_ne_nil d (List.append_eq_nil.1 hm.symm).1
    | cons c cs ih =>
      intro m hm
      cases m with
      | nil =>
        exfalso
        simp only [List.flatMap_nil, List.flatMap_cons] at hm
        exact utf8EncodeRune_ne_nil c (List.append_eq_nil.1 hm).1
      | cons d ds =>
        simp only [List.flatMap_cons] at hm
        obtain ⟨h1, h2⟩ := utf8EncodeRune_append_inj c d _ _ hm
        rw [h1, ih ds h2]
  have := key a.data b.data h
  cases a; cases b; simp_all

theorem foldl_collectCRD (crds : List (String × CRD)) (missing : List String)
    (crdList : List CRD) :
    crds.foldl collectCRD (missing, crdList) =
      (missing ++ ((crds.map Prod.snd).filter lacksMetadata).map CRD.Name,
        crdList ++ crds.map Prod.snd) := by
  induction crds generalizing missing crdList with
  | nil => simp
  | cons p rest ih =>
    simp only [List.foldl_cons, collectCRD, ih, List.map_cons, List.filter_cons]
    by_cases h : lacksMetadata p.2 = true
    · simp [h]
    · simp [h]

theorem mapLookup_eq_none {β : Type} (m : List (String × β)) (k : String)
    (h : mapLookup m k = none) : ∀ p ∈ m, p.1 ≠ k := by
  intro p hp hk
  simp only [mapLookup, Option.map_eq_none', List.find?_eq_none] at h
  exact h p hp (by simpa using hk)

theorem mapLookup_eq_some {β : Type} (m : List (String × β)) (k : String) (v : β)
    (hnd : (m.map Prod.fst).Nodup) (h : mapLookup m k = some v) :
    ∀ p ∈ m, p.1 = k → p.2 = v := by
  intro p hp hk
  simp only [mapLookup, Option.map_eq_some'] at h
  obtain ⟨q, hq, hv⟩ := h
  have hqm := List.mem_of_find?_eq_some hq
  have hqk : q.1 = k := by simpa using List.find?_some hq
  have : p = q := List.inj_on_of_nodup_map hnd hp hqm (hk.trans hqk.symm)
  rw [this, hv]

theorem applyConfigCRD_eq (crds : List (String × CRD)) (c : ConfigCRD)
    (hnd : (crds.map Prod.fst).Nodup) :
    applyConfigCRD crds c =
      crds.map (fun p => if p.1 = c.Name then (p.1, withMetadata c p.2) else p) := by
  unfold applyConfigCRD
  cases h : mapLookup crds c.Name with
  | none =>
    have hne := mapLookup_eq_none crds c.Name h
    simp only
    symm
    calc crds.map (fun p => if p.1 = c.Name then (p.1, withMetadata c p.2) else p)
        = crds.map id := by
          apply List.map_congr_left
          intro p hp
          simp [hne p hp]
      _ = crds := by simp
  | some crd =>
    have heq := mapLookup_eq_some crds c.Name crd hnd h
    simp only [mapUpdate]
    apply List.map_congr_left
    intro p hp
    by_cases hk : p.1 = c.Name
    · simp [hk, withMetadata, heq p hp hk]
    · simp [hk]

theorem mergedEntry_nil (p : String × CRD) : mergedEntry [] p = p := by
  simp [mergedEntry, lastEntry]

theorem mergedEntry_concat (cs : List ConfigCRD) (c : ConfigCRD) (p : String × CRD) :
    mergedEntry (cs ++ [c]) p =
      (fun q : String × CRD => if q.1 = c.Name then (q.1, withMetadata c q.2) else q)
        (mergedEntry cs p) := by
  simp only [mergedEntry, lastEntry, List.reverse_append, List.reverse_cons, List.reverse_nil,
    List.nil_append, List.singleton_append, List.find?_cons]
  by_cases hk : c.Name = p.1
  · simp only [hk, decide_True]
    cases List.find? (fun c => decide (c.Name = p.1)) cs.reverse with
    | none => simp
    | some d => simp [withMetadata]
  · have hk2 : ¬ p.1 = c.Name := fun h => hk h.symm
    simp only [hk, decide_False]
    cases List.find? (fun c => decide (c.Name = p.1)) cs.reverse with
    | none => simp [hk2]
    | some d => simp [hk2]

theorem foldl_applyConfigCRD (confCRDs : List ConfigCRD) (crds : List (String × CRD))
    (hnd : (crds.map Prod.fst).Nodup) :
    confCRDs.foldl applyConfigCRD crds = crds.map (mergedEntry confCRDs) := by
  induction confCRDs using List.reverseRecOn with
  | nil =>
    have : mergedEntry [] = id := funext mergedEntry_nil
    simp [this]
  | append_singleton cs c ih =>
    rw [List.foldl_append, List.foldl_cons, List.foldl_nil, ih]
    have hkeys : ((crds.map (mergedEntry cs)).map Prod.fst) = crds.map Prod.fst := by
      rw [List.map_map]
      apply List.map_congr_left
      intro p _
      simp only [Function.comp, mergedEntry]
      cases lastEntry cs p.1 <;> rfl
    rw [applyConfigCRD_eq _ _ (by rw [hkeys]; exact hnd), List.map_map]
    apply List.map_congr_left
    intro p _
    simp only [Function.comp]
    rw [mergedEntry_concat]

theorem mergedEntry_fst (cs : List ConfigCRD) (p : String × CRD) : (mergedEntry cs p).1 = p.1 := by
  simp only [mergedEntry]
  cases lastEntry cs p.1 <;> rfl

theorem map_fst_merged (cs : List ConfigCRD) (crds : List (String × CRD)) :
    (crds.map (mergedEntry cs)).map Prod.fst = crds.map Prod.fst := by
  rw [List.map_map]
  apply List.map_congr_left
  intro p _
  exact mergedEntry_fst cs p

theorem mergedEntry_name (cs : List ConfigCRD) (p : String × CRD) :
    (mergedEntry cs p).2.Name = p.2.Name := by
  simp only [mergedEntry]
  cases lastEntry cs p.1 <;> rfl

theorem strLE_total (a b : String) : strLE a b = true ∨ strLE b a = true :=
  leBytes_total (utf8Bytes a) (utf8Bytes b)

theorem strLE_trans (a b c : String) (h1 : strLE a b = true) (h2 : strLE b c = true) :
    strLE a c = true := leBytes_trans _ _ _ h1 h2

theorem strLE_antisymm (a b : String) (h1 : strLE a b = true) (h2 : strLE b a = true) :
    a = b :=
  utf8Bytes_injective a b (leBytes_antisymm _ _ h1 h2)

theorem strLT_iff (a b : String) : strLT a b = true ↔ strLE a b = true ∧ a ≠ b := by
  unfold strLT
  constructor
  · intro h
    have hba : strLE b a = false := by simpa using h
    refine ⟨?_, ?_⟩
    · rcases strLE_total a b with h1 | h1
      · exact h1
      · rw [hba] at h1; cases h1
    · intro hab
      subst hab
      rcases strLE_total a a with h1 | h1 <;> rw [hba] at h1 <;> cases h1
  · rintro ⟨h1, hne⟩
    by_contra h2
    have h3 : strLE b a = true := by simpa using h2
    exact hne (strLE_antisymm a b h1 h3)

theorem sortSlice_perm {α : Type} (less : α → α → Bool) (x : List α) :
    (sortSlice less x).Perm x :=
  List.perm_insertionSort _ x

theorem sortSlice_names_sorted (x : List CRD) :
    ((sortSlice (fun a b => strLE a.Name b.Name) x).map CRD.Name).Pairwise
      (fun a b => strLE a b = true) := by
  haveI : IsTotal CRD (fun a b => strLE a.Name b.Name = true) :=
    ⟨fun a b => strLE_total a.Name b.Name⟩
  haveI : IsTrans CRD (fun a b => strLE a.Name b.Name = true) :=
    ⟨fun a b c => strLE_trans a.Name b.Name c.Name⟩
  have h := List.sorted_insertionSort (fun a b : CRD => strLE a.Name b.Name = true) x
  unfold sortSlice
  rw [List.pairwise_map]
  exact h

theorem pairwise_strLT_of_nodup (l : List String) (h : l.Pairwise (fun a b => strLE a b = true))
    (hnd : l.Nodup) : l.Pairwise (fun a b => strLT a b = true) := by
  have := List.Pairwise.and h hnd
  exact this.imp (fun {a b} hab => (strLT_iff a b).2 hab)

theorem eq_of_perm_of_pairwise_strLT (l₁ l₂ : List String) (hp : l₁.Perm l₂)
    (h₁ : l₁.Pairwise (fun a b => strLT a b = true))
    (h₂ : l₂.Pairwise (fun a b => strLT a b = true)) : l₁ = l₂ := by
  haveI : IsAntisymm String (fun a b => strLT a b = true) :=
    ⟨fun a b hab hba => by
      have h1 := ((strLT_iff a b).1 hab).1
      have h2 := ((strLT_iff b a).1 hba).1
      exact strLE_antisymm a b h1 h2⟩
  exact List.eq_of_perm_of_sorted hp h₁ h₂

theorem buildRenderParams_snd (yaml : Marshal) (conf : config) (packageIndex : Nat)
    (extracts : yamlExtracts) (imageDigest : String) :
    (buildRenderParams yaml conf packageIndex extracts imageDigest).2 =
      { extracts with crds := conf.CRDs.foldl applyConfigCRD extracts.crds } := by
  simp only [buildRenderParams, foldl_collectCRD]
  split <;> rfl

theorem buildRenderParams_fst (yaml : Marshal) (conf : config) (packageIndex : Nat)
    (extracts : yamlExtracts) (imageDigest : String) :
    (buildRenderParams yaml conf packageIndex extracts imageDigest).1 =
      if offenders (conf.CRDs.foldl applyConfigCRD extracts.crds) ≠ [] then
        .error (.missingDescriptions (offenders (conf.CRDs.foldl applyConfigCRD extracts.crds)))
      else
        assembleRenderParams yaml conf packageIndex
          { extracts with crds := conf.CRDs.foldl applyConfigCRD extracts.crds } imageDigest
          (sortSlice (fun a b => strLE a.Name b.Name)
            ((conf.CRDs.foldl applyConfigCRD extracts.crds).map Prod.snd)) := by
  have hf : (fun crd => isBlank crd.Description || isBlank crd.DisplayName) = lacksMetadata :=
    funext fun crd => (lacksMetadata_eq crd).symm
  simp only [buildRenderParams, foldl_collectCRD, offenders, hf, List.nil_append]
  by_cases h : ((List.filter lacksMetadata
      (List.map Prod.snd (List.foldl applyConfigCRD extracts.crds conf.CRDs))).map CRD.Name) = []
  · simp [h]
  · have hlen : 0 < ((List.filter lacksMetadata
      (List.map Prod.snd (List.foldl applyConfigCRD extracts.crds conf.CRDs))).map CRD.Name).length :=
      List.length_pos.2 h
    simp only [gt_iff_lt, hlen, if_true, ne_eq, h, not_false_eq_true]

theorem assembleRenderParams_ok (yaml : Marshal) (conf : config) (packageIndex : Nat)
    (extracts : yamlExtracts) (imageDigest : String) (crdList : List CRD) (params : RenderParams)
    (h : assembleRenderParams yaml conf packageIndex extracts imageDigest crdList = .ok params) :
    params.CRDList = crdList ∧
    2 ≤ (Split conf.NewVersion '.').length ∧
    params.ShortVersion = Join ((Split conf.NewVersion '.').take 2) "." ∧
    ∃ pkg, conf.Packages[packageIndex]? = some pkg ∧
      params.Tag = (if pkg.DigestPinning then "@" ++ imageDigest else ":" ++ conf.NewVersion) := by
  unfold assembleRenderParams at h
  dsimp only at h
  repeat' (split at h)
  all_goals first
    | (injection h with h
       subst h
       refine ⟨rfl, by omega, rfl, _, ‹_›, ?_⟩
       simp_all)
    | cases h

theorem assembleRenderParams_not_missing (yaml : Marshal) (conf : config) (packageIndex : Nat)
    (extracts : yamlExtracts) (imageDigest : String) (crdList : List CRD) (missing : List String) :
    assembleRenderParams yaml conf packageIndex extracts imageDigest crdList ≠
      .error (.missingDescriptions missing) := by
  unfold assembleRenderParams
  intro h
  dsimp only at h
  repeat' (split at h)
  all_goals cases h

theorem mem_offenders (crds : List (String × CRD)) (name : String) :
    name ∈ offenders crds ↔
      ∃ p ∈ crds, p.2.Name = name ∧
        (isBlank p.2.DisplayName = true ∨ isBlank p.2.Description = true) := by
  simp only [offenders, List.mem_map, List.mem_filter, Bool.or_eq_true]
  constructor
  · rintro ⟨crd, ⟨⟨p, hp, rfl⟩, hb⟩, rfl⟩
    exact ⟨p, hp, rfl, hb.symm⟩
  · rintro ⟨p, hp, rfl, hb⟩
    exact ⟨p.2, ⟨⟨p, hp, rfl⟩, hb.symm⟩, rfl⟩

theorem offenders_ne_nil (crds : List (String × CRD)) :
    offenders crds ≠ [] ↔
      ∃ p ∈ crds, isBlank p.2.DisplayName = true ∨ isBlank p.2.Description = true := by
  constructor
  · intro h
    obtain ⟨name, hname⟩ := List.exists_mem_of_ne_nil _ h
    obtain ⟨p, hp, _, hb⟩ := (mem_offenders crds name).1 hname
    exact ⟨p, hp, hb⟩
  · rintro ⟨p, hp, hb⟩ hnil
    have : p.2.Name ∈ offenders crds := (mem_offenders crds _).2 ⟨p, hp, rfl, hb⟩
    rw [hnil] at this
    cases this

theorem mapStore_keys {β : Type} (m : List (String × β)) (k : String) (v : β) :
    (mapStore m k v).map Prod.fst =
      if k ∈ m.map Prod.fst then m.map Prod.fst else m.map Prod.fst ++ [k] := by
  unfold mapStore
  cases h : mapLookup m k with
  | none =>
    have hne := mapLookup_eq_none m k h
    have : k ∉ m.map Prod.fst := by
      intro hk
      obtain ⟨p, hp, hpk⟩ := List.mem_map.1 hk
      exact hne p hp hpk
    simp [this]
  | some w =>
    have : k ∈ m.map Prod.fst := by
      simp only [mapLookup, Option.map_eq_some'] at h
      obtain ⟨q, hq, _⟩ := h
      have hqk : q.1 = k := by simpa using List.find?_some hq
      exact List.mem_map.2 ⟨q, List.mem_of_find?_eq_some hq, hqk⟩
    simp only [this, if_true, mapUpdate, List.map_map]
    apply List.map_congr_left
    intro p _
    simp only [Function.comp]
    split <;> rfl

theorem mapStore_mem {β : Type} (m : List (String × β)) (k : String) (v : β)
    (p : String × β) (hp : p ∈ mapStore m k v) : p ∈ m ∨ p = (k, v) := by
  unfold mapStore at hp
  cases h : mapLookup m k with
  | none =>
    rw [h] at hp
    simp only [List.mem_append, List.mem_singleton] at hp
    exact hp
  | some w =>
    rw [h] at hp
    simp only [mapUpdate, List.mem_map] at hp
    obtain ⟨q, hq, hqp⟩ := hp
    by_cases hk : q.1 = k
    · simp only [hk, if_true] at hqp
      exact Or.inr hqp.symm
    · simp only [hk, if_false] at hqp
      exact Or.inl (hqp ▸ hq)

theorem mapStore_keyed (m : List (String × CRD)) (k : String) (v : CRD) (hm : KeyedByName m)
    (hv : k = v.Name) :
    KeyedByName (mapStore m k v) ∧
      ∀ k', k' ∈ (mapStore m k v).map Prod.fst ↔ k' ∈ m.map Prod.fst ∨ k' = k := by
  refine ⟨⟨?_, ?_⟩, ?_⟩
  · rw [mapStore_keys]
    by_cases hk : k ∈ m.map Prod.fst
    · simp only [hk, if_true]; exact hm.1
    · simp only [hk, if_false]
      exact List.Nodup.append hm.1 (List.nodup_singleton k) (by simpa using hk)
  · intro p hp
    rcases mapStore_mem m k v p hp with h | h
    · exact hm.2 p h
    · rw [h]; exact hv
  · intro k'
    rw [mapStore_keys]
    by_cases hk : k ∈ m.map Prod.fst
    · simp only [hk, if_true]
      constructor
      · exact Or.inl
      · rintro (h | h)
        · exact h
        · rw [h]; exact hk
    · simp only [hk, if_false, List.mem_append, List.mem_singleton]

theorem extractObject_keyed (parts parts' : yamlExtracts) (yamlBytes : Bytes)
    (obj : RuntimeObject) (hk : KeyedByName parts.crds)
    (h : extractObject parts yamlBytes obj = .ok parts') :
    KeyedByName parts'.crds ∧
      ∀ k, k ∈ parts'.crds.map Prod.fst ↔ k ∈ parts.crds.map Prod.fst ∨ crdName? obj = some k := by
  cases obj with
  | crdV1beta1 name group kind version =>
    simp only [extractObject, Except.ok.injEq] at h
    subst h
    have := mapStore_keyed parts.crds name
      { Name := name, Group := group, Kind := kind, Version := version, DisplayName := "",
        Description := "", Def := yamlBytes } hk rfl
    refine ⟨this.1, fun k => ?_⟩
    rw [this.2 k]
    simp [crdName?, eq_comm]
  | crdV1 name group kind versions =>
    simp only [extractObject] at h
    split at h
    · cases h
    · rename_i version _
      simp only [Except.ok.injEq] at h
      subst h
      have := mapStore_keyed parts.crds name
        { Name := name, Group := group, Kind := kind, Version := version, DisplayName := "",
          Description := "", Def := yamlBytes } hk rfl
      refine ⟨this.1, fun k => ?_⟩
      rw [this.2 k]
      simp [crdName?, eq_comm]
  | clusterRole name rules =>
    simp only [extractObject] at h
    split at h <;>
      (simp only [Except.ok.injEq] at h
       subst h
       exact ⟨hk, fun k => by simp [crdName?]⟩)
  | validatingWebhookConfiguration o =>
    simp only [extractObject, Except.ok.injEq] at h
    subst h
    exact ⟨hk, fun k => by simp [crdName?]⟩
  | other kind =>
    simp only [extractObject, Except.ok.injEq] at h
    subst h
    exact ⟨hk, fun k => by simp [crdName?]⟩

theorem extractLoop_keyed (scheme : Scheme) (stream : List (Except String Bytes))
    (parts parts' : yamlExtracts) (hk : KeyedByName parts.crds)
    (h : extractLoop scheme parts stream = .ok parts') :
    KeyedByName parts'.crds ∧
      ∀ k, k ∈ parts'.crds.map Prod.fst ↔
        k ∈ parts.crds.map Prod.fst ∨
          ∃ item ∈ stream, ∃ obj, decoded scheme item = some obj ∧ crdName? obj = some k := by
  induction stream generalizing parts with
  | nil =>
    simp only [extractLoop, Except.ok.injEq] at h
    subst h
    exact ⟨hk, fun k => by simp⟩
  | cons item rest ih =>
    cases item with
    | error err => simp [extractLoop] at h
    | ok yamlBytes =>
      simp only [extractLoop] at h
      cases hd : scheme.Decode (normalizeTrailingNewlines yamlBytes) with
      | error err => rw [hd] at h; cases h
      | ok obj =>
        rw [hd] at h
        simp only at h
        cases ho : extractObject parts (normalizeTrailingNewlines yamlBytes) obj with
        | error p => rw [ho] at h; cases h
        | ok mid =>
          rw [ho] at h
          simp only at h
          have hmid := extractObject_keyed parts mid _ obj hk ho
          have hrest := ih mid hmid.1 h
          refine ⟨hrest.1, fun k => ?_⟩
          rw [hrest.2 k, hmid.2 k]
          have hdec : decoded scheme (.ok yamlBytes) = some obj := by
            simp [decoded, hd]
          constructor
          · rintro ((h1 | h1) | ⟨it, hit, o, h2, h3⟩)
            · exact Or.inl h1
            · exact Or.inr ⟨_, List.mem_cons_self _ _, obj, hdec, h1⟩
            · exact Or.inr ⟨it, List.mem_cons_of_mem _ hit, o, h2, h3⟩
          · rintro (h1 | ⟨it, hit, o, h2, h3⟩)
            · exact Or.inl (Or.inl h1)
            · rcases List.mem_cons.1 hit with h4 | h4
              · subst h4
                rw [hdec] at h2
                injection h2 with h2
                subst h2
                exact Or.inl (Or.inr h3)
              · exact Or.inr ⟨it, h4, o, h2, h3⟩

theorem extractYAMLParts_loop (scheme : Scheme) (stream : List (Except String Bytes))
    (parts : yamlExtracts) (h : extractYAMLParts scheme stream = .ok parts) :
    extractLoop scheme { crds := [], operatorRBAC := [], operatorWebhooks := [] } stream =
      .ok parts := by
  unfold extractYAMLParts at h
  repeat' (split at h)
  all_goals first
    | exact h
    | cases h

theorem extractYAMLParts_keyed (scheme : Scheme) (stream : List (Except String Bytes))
    (parts : yamlExtracts) (h : extractYAMLParts scheme stream = .ok parts) :
    KeyedByName parts.crds ∧
      ∀ k, k ∈ parts.crds.map Prod.fst ↔
        ∃ item ∈ stream, ∃ obj, decoded scheme item = some obj ∧ crdName? obj = some k := by
  have h2 := extractLoop_keyed scheme stream _ parts
    (by simp [KeyedByName]) (extractYAMLParts_loop scheme stream parts h)
  refine ⟨h2.1, fun k => ?_⟩
  rw [h2.2 k]
  simp

theorem KeyedByName.of_perm {l₁ l₂ : List (String × CRD)} (hp : l₁.Perm l₂)
    (h : KeyedByName l₂) : KeyedByName l₁ :=
  ⟨(hp.map Prod.fst).nodup_iff.2 h.1, fun p hp1 => h.2 p (hp.mem_iff.1 hp1)⟩

theorem buildRenderParams_ok (yaml : Marshal) (conf : config) (packageIndex : Nat)
    (extracts : yamlExtracts) (imageDigest : String) (params : RenderParams)
    (h : (buildRenderParams yaml conf packageIndex extracts imageDigest).1 = .ok params) :
    assembleRenderParams yaml conf packageIndex
        { extracts with crds := conf.CRDs.foldl applyConfigCRD extracts.crds } imageDigest
        (sortSlice (fun a b => strLE a.Name b.Name)
          ((conf.CRDs.foldl applyConfigCRD extracts.crds).map Prod.snd)) = .ok params := by
  rw [buildRenderParams_fst] at h
  split at h
  · cases h
  · exact h

theorem crdList_of_build (yaml : Marshal) (conf : config) (packageIndex : Nat)
    (extracts : yamlExtracts) (imageDigest : String) (params : RenderParams)
    (hk : KeyedByName extracts.crds)
    (h : (buildRenderParams yaml conf packageIndex extracts imageDigest).1 = .ok params) :
    params.CRDList.Perm ((extracts.crds.map (mergedEntry conf.CRDs)).map Prod.snd) ∧
      (params.CRDList.map CRD.Name).Perm (extracts.crds.map Prod.fst) ∧
      (params.CRDList.map CRD.Name).Pairwise (fun a b => strLT a b = true) := by
  have h1 := (assembleRenderParams_ok _ _ _ _ _ _ _ (buildRenderParams_ok _ _ _ _ _ _ h)).1
  rw [foldl_applyConfigCRD _ _ hk.1] at h1
  have hperm : params.CRDList.Perm ((extracts.crds.map (mergedEntry conf.CRDs)).map Prod.snd) := by
    rw [h1]; exact sortSlice_perm _ _
  have hnames : ((extracts.crds.map (mergedEntry conf.CRDs)).map Prod.snd).map CRD.Name =
      extracts.crds.map Prod.fst := by
    rw [List.map_map, List.map_map]
    apply List.map_congr_left
    intro p hp
    simp only [Function.comp, mergedEntry_name]
    exact (hk.2 p hp).symm
  have hperm2 : (params.CRDList.map CRD.Name).Perm (extracts.crds.map Prod.fst) := by
    rw [← hnames]; exact hperm.map _
  refine ⟨hperm, hperm2, ?_⟩
  apply pairwise_strLT_of_nodup
  · rw [h1]; exact sortSlice_names_sorted _
  · exact hperm2.nodup_iff.2 hk.1

theorem mergedEntry_metadata (cs : List ConfigCRD) (c : ConfigCRD) (p : String × CRD)
    (hc : lastEntry cs p.1 = some c) :
    (mergedEntry cs p).2.DisplayName = c.DisplayName ∧
      (mergedEntry cs p).2.Description = c.Description := by
  simp [mergedEntry, hc, withMetadata]

theorem splitChars_ne_nil (sep : Char) (l : List Char) : splitChars sep l ≠ [] := by
  cases l with
  | nil => simp [splitChars]
  | cons c cs =>
    simp only [splitChars]
    split
    · simp
    · split <;> simp

theorem splitChars_of_not_mem (sep : Char) (l : List Char) (h : sep ∉ l) :
    splitChars sep l = [l] := by
  induction l with
  | nil => rfl
  | cons c cs ih =>
    have hc : ¬ c = sep := fun hc => h (by simp [hc])
    have hcs : sep ∉ cs := fun hm => h (List.mem_cons_of_mem _ hm)
    simp [splitChars, hc, ih hcs]

theorem splitChars_append_sep (sep : Char) (a t : List Char) (h : sep ∉ a) :
    splitChars sep (a ++ sep :: t) = a :: splitChars sep t := by
  induction a with
  | nil => simp [splitChars]
  | cons c cs ih =>
    have hc : ¬ c = sep := fun hc => h (by simp [hc])
    have hcs : sep ∉ cs := fun hm => h (List.mem_cons_of_mem _ hm)
    simp [splitChars, hc, ih hcs]

theorem splitChars_two (sep : Char) (a b rest : List Char) (ha : sep ∉ a) (hb : sep ∉ b)
    (hrest : rest = [] ∨ ∃ r, rest = sep :: r) :
    (splitChars sep (a ++ sep :: (b ++ rest))).take 2 = [a, b] := by
  rw [splitChars_append_sep sep a _ ha]
  rcases hrest with h | ⟨r, h⟩
  · subst h
    simp [splitChars_of_not_mem sep b hb]
  · subst h
    simp [splitChars_append_sep sep b r hb]

theorem Split_length_of_not_mem (s : String) (sep : Char) (h : sep ∉ s.data) :
    (Split s sep).length = 1 := by
  simp [Split, splitChars_of_not_mem sep s.data h]

theorem Split_two (a b rest : String) (ha : '.' ∉ a.data) (hb : '.' ∉ b.data)
    (hrest : rest = "" ∨ ∃ r, rest = "." ++ r) :
    Join ((Split (a ++ "." ++ b ++ rest) '.').take 2) "." = a ++ "." ++ b := by
  have hdata : (a ++ "." ++ b ++ rest).data = a.data ++ '.' :: (b.data ++ rest.data) := by
    simp [String.data_append]
  have hr : rest.data = [] ∨ ∃ r, rest.data = '.' :: r := by
    rcases hrest with h | ⟨r, h⟩
    · left; rw [h]
    · right; exact ⟨r.data, by rw [h]; rfl⟩
  simp only [Split, hdata, ← List.map_take, splitChars_two '.' a.data b.data rest.data ha hb hr]
  simp [Join]

theorem foldlM_appendWebhookDefinition (webhooks : List ValidatingWebhook)
    (acc : List WebhookDefinition)
    (hservice : ∀ w ∈ webhooks, w.ClientConfig.Service ≠ none) :
    ∃ defs, webhooks.foldlM appendWebhookDefinition acc = .ok (acc ++ defs) ∧
      List.Forall₂ DefinitionOf webhooks defs := by
  induction webhooks generalizing acc with
  | nil => exact ⟨[], by simp [List.foldlM, pure, Except.pure], List.Forall₂.nil⟩
  | cons w ws ih =>
    have hw := hservice w (List.mem_cons_self _ _)
    cases hs : w.ClientConfig.Service with
    | none => exact absurd hs hw
    | some service =>
      have hstep : ∃ d, appendWebhookDefinition acc w = .ok (acc ++ [d]) ∧ DefinitionOf w d := by
        simp only [appendWebhookDefinition, hs]
        exact ⟨_, rfl, ⟨rfl, rfl, rfl, rfl, rfl, rfl, rfl, rfl, service, hs, rfl⟩⟩
      obtain ⟨d, hstep, hd⟩ := hstep
      obtain ⟨defs, hdefs, hall⟩ :=
        ih (acc ++ [d]) (fun w' hw' => hservice w' (List.mem_cons_of_mem _ hw'))
      refine ⟨d :: defs, ?_, List.Forall₂.cons hd hall⟩
      simp only [List.foldlM, hstep, bind, Except.bind]
      rw [hdefs]
      simp

theorem extractObject_rbac (parts parts' : yamlExtracts) (yamlBytes : Bytes)
    (obj : RuntimeObject) (h : extractObject parts yamlBytes obj = .ok parts') :
    parts'.operatorRBAC = (operatorRules? obj).getD parts.operatorRBAC := by
  cases obj with
  | crdV1beta1 name group kind version =>
    simp only [extractObject, Except.ok.injEq] at h
    subst h
    rfl
  | crdV1 name group kind versions =>
    simp only [extractObject] at h
    split at h
    · cases h
    · simp only [Except.ok.injEq] at h
      subst h
      rfl
  | clusterRole name rules =>
    simp only [extractObject] at h
    by_cases hn : name = operatorName
    · simp only [hn, if_true, Except.ok.injEq] at h
      subst h
      simp [operatorRules?, hn]
    · simp only [hn, if_false, Except.ok.injEq] at h
      subst h
      simp [operatorRules?, hn]
  | validatingWebhookConfiguration o =>
    simp only [extractObject, Except.ok.injEq] at h
    subst h
    rfl
  | other kind =>
    simp only [extractObject, Except.ok.injEq] at h
    subst h
    rfl

theorem extractObject_isOk (parts : yamlExtracts) (yamlBytes : Bytes) (obj : RuntimeObject) :
    (∃ parts', extractObject parts yamlBytes obj = .ok parts') ↔ hasVersion obj = true := by
  cases obj with
  | crdV1 name group kind versions =>
    cases versions with
    | nil => simp [extractObject, hasVersion]
    | cons v vs => simp [extractObject, hasVersion]
  | clusterRole name rules =>
    simp only [extractObject, hasVersion]
    split <;> simp
  | _ => simp [extractObject, hasVersion]

theorem getLast?_getD_filterMap_cons (obj : RuntimeObject) (objs : List RuntimeObject)
    (d : List PolicyRule) :
    (((obj :: objs).filterMap operatorRules?).getLast?).getD d =
      ((objs.filterMap operatorRules?).getLast?).getD ((operatorRules? obj).getD d) := by
  cases h : operatorRules? obj with
  | none => simp [List.filterMap_cons, h]
  | some rules => simp [List.filterMap_cons, h, List.getLast?_cons]

theorem extractLoop_rbac (scheme : Scheme) (stream : List (Except String Bytes))
    (objs : List RuntimeObject) (parts : yamlExtracts)
    (hdec : List.Forall₂ (fun item obj => decoded scheme item = some obj) stream objs) :
    (∀ parts', extractLoop scheme parts stream = .ok parts' →
        parts'.operatorRBAC =
          ((objs.filterMap operatorRules?).getLast?).getD parts.operatorRBAC) ∧
      ((∃ parts', extractLoop scheme parts stream = .ok parts') ↔
        ∀ obj ∈ objs, hasVersion obj = true) := by
  induction hdec generalizing parts with
  | nil =>
    simp [extractLoop]
  | @cons item obj rest objs hitem _ ih =>
    cases item with
    | error err => simp [decoded] at hitem
    | ok yamlBytes =>
      have hd : scheme.Decode (normalizeTrailingNewlines yamlBytes) = .ok obj := by
        simp only [decoded] at hitem
        split at hitem
        · injection hitem with hitem
          subst hitem
          assumption
        · cases hitem
      simp only [extractLoop, hd]
      cases ho : extractObject parts (normalizeTrailingNewlines yamlBytes) obj with
      | error p =>
        have hv : ¬ hasVersion obj = true := fun hv =>
          by
            obtain ⟨q, hq⟩ := (extractObject_isOk parts (normalizeTrailingNewlines yamlBytes) obj).2 hv
            rw [ho] at hq
            cases hq
        simp [hv]
      | ok mid =>
        have hv : hasVersion obj = true :=
          (extractObject_isOk parts (normalizeTrailingNewlines yamlBytes) obj).1 ⟨mid, ho⟩
        have hmid := extractObject_rbac parts mid _ obj ho
        obtain ⟨ih1, ih2⟩ := ih mid
        simp only
        constructor
        · intro parts' hp
          rw [ih1 parts' hp, hmid, getLast?_getD_filterMap_cons]
        · rw [ih2]
          simp [hv]

theorem lastOperatorRules_append_role (before after : List RuntimeObject)
    (rules : List PolicyRule) (hafter : ∀ o ∈ after, operatorRules? o = none) :
    lastOperatorRules (before ++ .clusterRole operatorName rules :: after) = rules := by
  have h1 : after.filterMap operatorRules? = [] := by
    rw [List.filterMap_eq_nil_iff]
    exact hafter
  simp [lastOperatorRules, List.filterMap_append, List.filterMap_cons, operatorRules?, h1]

theorem lastOperatorRules_of_none (objs : List RuntimeObject)
    (h : ∀ o ∈ objs, operatorRules? o = none) : lastOperatorRules objs = [] := by
  have h1 : objs.filterMap operatorRules? = [] := by
    rw [List.filterMap_eq_nil_iff]
    exact h
  simp [lastOperatorRules, h1]

theorem leftBehind_mergedEntry (cs : List ConfigCRD) (p : String × CRD) :
    LeftBehind cs p (mergedEntry cs p) := by
  unfold LeftBehind mergedEntry
  cases h : lastEntry cs p.1 with
  | none => simp
  | some c =>
    have hc : c ∈ cs ∧ c.Name = p.1 := by
      unfold lastEntry at h
      have h1 := List.mem_of_find?_eq_some h
      have h2 := List.find?_some h
      exact ⟨List.mem_reverse.1 h1, by simpa using h2⟩
    refine ⟨rfl, rfl, rfl, rfl, rfl, rfl, ?_, ?_⟩
    · intro hnone
      exact absurd hc.2 (hnone c hc.1)
    · intro c' hc'
      injection hc' with hc'
      subst hc'
      exact ⟨rfl, rfl⟩

theorem forall₂_map_right {α β : Type} (R : α → β → Prop) (f : α → β) (l : List α)
    (h : ∀ a, R a (f a)) : List.Forall₂ R l (l.map f) := by
  induction l with
  | nil => exact List.Forall₂.nil
  | cons a l ih => exact List.Forall₂.cons (h a) ih

theorem foldlM_openManifest (osOpen : String → Except String Bytes)
    (allPaths manifestPaths : List String) (contents rs : List Bytes)
    (hopen : List.Forall₂ (fun p c => osOpen p = .ok c) manifestPaths contents) :
    manifestPaths.foldlM (openManifest osOpen allPaths) rs =
      .ok (rs ++ (contents.map (fun c => [c, utf8Bytes yamlSeparator])).flatten) := by
  induction hopen generalizing rs with
  | nil => simp [List.foldlM, pure, Except.pure]
  | @cons p c ps cs hp _ ih =>
    simp only [List.foldlM, openManifest, hp, bind, Except.bind]
    rw [ih]
    simp

theorem foldlM_webhookConfigurations (webhooks : List ValidatingWebhookConfiguration)
    (acc : List WebhookDefinition)
    (hservice : ∀ cfg ∈ webhooks, ∀ w ∈ cfg.Webhooks, w.ClientConfig.Service ≠ none) :
    ∃ defs, webhooks.foldlM
      (fun webhookDefinitionList webhook =>
        (validatingWebhookConfigurationToWebhookDefinition webhook).map
          (fun defs => webhookDefinitionList ++ defs)) acc = .ok defs := by
  induction webhooks generalizing acc with
  | nil => exact ⟨acc, rfl⟩
  | cons cfg rest ih =>
    obtain ⟨defs, hdefs, _⟩ :=
      foldlM_appendWebhookDefinition cfg.Webhooks [] (hservice cfg (List.mem_cons_self _ _))
    have hcfg : validatingWebhookConfigurationToWebhookDefinition cfg = .ok defs := by
      unfold validatingWebhookConfigurationToWebhookDefinition
      rw [hdefs]
      simp
    obtain ⟨all, hall⟩ := ih (acc ++ defs) (fun c hc => hservice c (List.mem_cons_of_mem _ hc))
    exact ⟨all, by simp only [List.foldlM, hcfg, Except.map, bind, Except.bind]; exact hall⟩

theorem assembleRenderParams_no_dot (yaml : Marshal) (conf : config) (packageIndex : Nat)
    (extracts : yamlExtracts) (imageDigest : String) (crdList : List CRD)
    (hdot : '.' ∉ conf.NewVersion.data)
    (hservice : ∀ cfg ∈ extracts.operatorWebhooks, ∀ w ∈ cfg.Webhooks,
      w.ClientConfig.Service ≠ none) :
    (∃ cause, assembleRenderParams yaml conf packageIndex extracts imageDigest crdList =
        .error (.marshalWebhooks cause)) ∨
      assembleRenderParams yaml conf packageIndex extracts imageDigest crdList =
        .error (.invalidVersion conf.NewVersion) := by
  obtain ⟨defs, hdefs⟩ := foldlM_webhookConfigurations extracts.operatorWebhooks [] hservice
  have hlen : (Split conf.NewVersion '.').length < 2 := by
    rw [Split_length_of_not_mem _ _ hdot]
    decide
  unfold assembleRenderParams
  simp only [hdefs]
  cases hy : yaml.webhooks defs with
  | error cause => exact Or.inl ⟨cause, rfl⟩
  | ok webhooks =>
    right
    simp only [hlen, if_true]

theorem rdropWhile_newline_append (b : Bytes) :
    ∃ k, b = b.rdropWhile (fun x => x == 10) ++ List.replicate k 10 := by
  induction b using List.reverseRecOn with
  | nil => exact ⟨0, rfl⟩
  | append_singleton l a ih =>
    by_cases ha : a = 10
    · obtain ⟨k, hk⟩ := ih
      refine ⟨k + 1, ?_⟩
      subst ha
      rw [List.rdropWhile_concat_pos _ _ _ (by simp), List.replicate_succ', ← List.append_assoc,
        ← hk]
    · refine ⟨0, ?_⟩
      rw [List.rdropWhile_concat_neg _ _ _ (by simpa using ha)]
      simp

theorem rdropWhile_newline_last (b : Bytes) (h : b.rdropWhile (fun x => x == 10) ≠ []) :
    (b.rdropWhile (fun x => x == 10)).getLast h ≠ 10 := by
  have := List.rdropWhile_last_not (fun x => x == 10) b h
  simpa using this

theorem rdropWhile_newline_of_body (body : Bytes) (k : Nat)
    (hbody : ∀ h : body ≠ [], body.getLast h ≠ 10) :
    (body ++ List.replicate k 10).rdropWhile (fun x => x == 10) = body := by
  induction k with
  | zero =>
    rw [List.replicate_zero, List.append_nil, List.rdropWhile_eq_self_iff]
    intro h
    simpa using hbody h
  | succ k ih =>
    rw [List.replicate_succ', ← List.append_assoc, List.rdropWhile_concat_pos _ _ _ (by simp), ih]

/-! ## The claims -/

/-- C1, as stated, fails: with the new version "1" the build fails although both extracted
CRDs have a display name and a description after the merge. -/
theorem C1_counterexample :
    (buildRenderParams exampleMarshal (exampleConfig "1") 0 exampleExtract "").1 =
        .error (.invalidVersion "1") ∧
      ∀ p ∈ (buildRenderParams exampleMarshal (exampleConfig "1") 0 exampleExtract "").2.crds,
        isBlank p.2.DisplayName = false ∧ isBlank p.2.Description = false := by
  decide

/-- C1, amended: `buildRenderParams` fails with the error "config file does not contain
descriptions for some CRDs" if and only if, in the extract it leaves behind (the config
metadata copied onto the CRDs), some CRD has a blank display name or description; the error
then lists the name of every such CRD, in the order of the map iteration, and of no other
CRD. -/
theorem C1_missing_descriptions_iff (yaml : Marshal) (conf : config) (packageIndex : Nat)
    (extracts : yamlExtracts) (imageDigest : String) (missing : List String) :
    ((buildRenderParams yaml conf packageIndex extracts imageDigest).1 =
          .error (.missingDescriptions missing) ↔
        (missing = offenders (buildRenderParams yaml conf packageIndex extracts imageDigest).2.crds ∧
          ∃ p ∈ (buildRenderParams yaml conf packageIndex extracts imageDigest).2.crds,
            isBlank p.2.DisplayName = true ∨ isBlank p.2.Description = true)) ∧
      (∀ name,
        name ∈ offenders (buildRenderParams yaml conf packageIndex extracts imageDigest).2.crds ↔
          ∃ p ∈ (buildRenderParams yaml conf packageIndex extracts imageDigest).2.crds,
            p.2.Name = name ∧
              (isBlank p.2.DisplayName = true ∨ isBlank p.2.Description = true)) ∧
      (buildRenderParams yaml conf packageIndex extracts imageDigest).2.crds =
        conf.CRDs.foldl applyConfigCRD extracts.crds := by
  rw [buildRenderParams_snd, buildRenderParams_fst]
  refine ⟨?_, mem_offenders _, rfl⟩
  simp only
  rw [← offenders_ne_nil]
  by_cases h : offenders (conf.CRDs.foldl applyConfigCRD extracts.crds) = []
  · simp only [h, ne_eq, not_true_eq_false, if_false, and_false, iff_false]
    exact assembleRenderParams_not_missing _ _ _ _ _ _ _
  · simp only [ne_eq, h, not_false_eq_true, if_true, and_true]
    constructor
    · intro heq
      injection heq with heq
      injection heq with heq
      exact heq.symm
    · intro heq
      rw [heq]

/-- C1 at a concrete input: the config describes `a` only, and the error lists `b`. -/
theorem C1_missing_descriptions_witness :
    (buildRenderParams exampleMarshal
        { exampleConfig "1.2.3" with CRDs := [⟨"a", "A", "about a"⟩] } 0 exampleExtract "").1 =
      .error (.missingDescriptions ["b"]) :=
  ((C1_missing_descriptions_iff exampleMarshal
      { exampleConfig "1.2.3" with CRDs := [⟨"a", "A", "about a"⟩] } 0 exampleExtract ""
      ["b"]).1).2 (by decide)

/-- C2: when `buildRenderParams` succeeds on an extract that is keyed by name, `CRDList` holds
exactly the CRDs of the extract left behind, its names are exactly the keys of the extract, and
the names are strictly ascending; two streams with the same documents in a different order,
whatever the order in which the maps are visited, give `CRDList`s with the same sequence of
names; and every extract that `extractYAMLParts` returns is keyed by name. -/
theorem C2_crdList_sorted_by_name :
    (∀ (yaml : Marshal) (conf : config) (packageIndex : Nat) (extracts : yamlExtracts)
        (imageDigest : String) (params : RenderParams) (after : yamlExtracts),
        KeyedByName extracts.crds →
        buildRenderParams yaml conf packageIndex extracts imageDigest = (.ok params, after) →
        params.CRDList.Perm (after.crds.map Prod.snd) ∧
          (params.CRDList.map CRD.Name).Perm (extracts.crds.map Prod.fst) ∧
          (params.CRDList.map CRD.Name).Pairwise (fun a b => strLT a b = true)) ∧
    (∀ (yaml : Marshal) (conf : config) (packageIndex : Nat) (imageDigest : String)
        (scheme : Scheme) (stream₁ stream₂ : List (Except String Bytes))
        (parts₁ parts₂ extracts₁ extracts₂ : yamlExtracts) (params₁ params₂ : RenderParams),
        stream₁.Perm stream₂ →
        extractYAMLParts scheme stream₁ = .ok parts₁ →
        extractYAMLParts scheme stream₂ = .ok parts₂ →
        extracts₁.crds.Perm parts₁.crds →
        extracts₂.crds.Perm parts₂.crds →
        (buildRenderParams yaml conf packageIndex extracts₁ imageDigest).1 = .ok params₁ →
        (buildRenderParams yaml conf packageIndex extracts₂ imageDigest).1 = .ok params₂ →
        params₁.CRDList.map CRD.Name = params₂.CRDList.map CRD.Name) ∧
    (∀ (scheme : Scheme) (stream : List (Except String Bytes)) (parts : yamlExtracts),
        extractYAMLParts scheme stream = .ok parts → KeyedByName parts.crds) := by
  refine ⟨?_, ?_, fun scheme stream parts hx => (extractYAMLParts_keyed scheme stream parts hx).1⟩
  · intro yaml conf packageIndex extracts imageDigest params after hk hb
    have h1 : (buildRenderParams yaml conf packageIndex extracts imageDigest).1 = .ok params := by
      rw [hb]
    have h2 : after = (buildRenderParams yaml conf packageIndex extracts imageDigest).2 := by
      rw [hb]
    have h3 := crdList_of_build yaml conf packageIndex extracts imageDigest params hk h1
    rw [h2, buildRenderParams_snd, foldl_applyConfigCRD _ _ hk.1]
    exact h3
  · intro yaml conf packageIndex imageDigest scheme stream₁ stream₂ parts₁ parts₂ extracts₁
      extracts₂ params₁ params₂ hs hx₁ hx₂ ho₁ ho₂ hb₁ hb₂
    have hp₁ := extractYAMLParts_keyed scheme stream₁ parts₁ hx₁
    have hp₂ := extractYAMLParts_keyed scheme stream₂ parts₂ hx₂
    have hk₁ : KeyedByName extracts₁.crds := KeyedByName.of_perm ho₁ hp₁.1
    have hk₂ : KeyedByName extracts₂.crds := KeyedByName.of_perm ho₂ hp₂.1
    have hc₁ := crdList_of_build yaml conf packageIndex extracts₁ imageDigest params₁ hk₁ hb₁
    have hc₂ := crdList_of_build yaml conf packageIndex extracts₂ imageDigest params₂ hk₂ hb₂
    have hkeys : (parts₁.crds.map Prod.fst).Perm (parts₂.crds.map Prod.fst) := by
      rw [List.perm_ext_iff_of_nodup hp₁.1.1 hp₂.1.1]
      intro k
      rw [hp₁.2 k, hp₂.2 k]
      constructor
      · rintro ⟨item, hitem, rest⟩
        exact ⟨item, hs.mem_iff.1 hitem, rest⟩
      · rintro ⟨item, hitem, rest⟩
        exact ⟨item, hs.mem_iff.2 hitem, rest⟩
    have hperm : (params₁.CRDList.map CRD.Name).Perm (params₂.CRDList.map CRD.Name) :=
      hc₁.2.1.trans ((ho₁.map Prod.fst).trans (hkeys.trans
        ((ho₂.map Prod.fst).symm.trans hc₂.2.1.symm)))
    exact eq_of_perm_of_pairwise_strLT _ _ hperm hc₁.2.2 hc₂.2.2

/-- C2 at a concrete input: the documents of `b` and of two CRDs named `a`, read in two
orders, give different CRDs for `a` and the same sequence of names `a`, `b`. -/
theorem C2_crdList_sorted_by_name_witness :
    (buildRenderParams exampleMarshal (exampleConfig "1.2.3") 0 exampleExtract "" =
        (.ok exampleParams, exampleExtractMerged) ∧
      exampleParams.CRDList.Perm (exampleExtractMerged.crds.map Prod.snd) ∧
      (exampleParams.CRDList.map CRD.Name).Perm (exampleExtract.crds.map Prod.fst) ∧
      (exampleParams.CRDList.map CRD.Name).Pairwise (fun a b => strLT a b = true)) ∧
    (extractYAMLParts exampleScheme [.ok [98], .ok [99], .ok [97, 10, 10]] = .ok exampleExtract ∧
      extractYAMLParts exampleScheme [.ok [97, 10, 10], .ok [98], .ok [99]] =
        .ok exampleExtractOther ∧
      (buildRenderParams exampleMarshal (exampleConfig "1.2.3") 0 exampleExtractOther "").1 =
        .ok exampleParamsOther ∧
      exampleParams.CRDList ≠ exampleParamsOther.CRDList ∧
      exampleParams.CRDList.map CRD.Name = exampleParamsOther.CRDList.map CRD.Name) :=
  ⟨⟨by decide,
    C2_crdList_sorted_by_name.1 exampleMarshal (exampleConfig "1.2.3") 0 exampleExtract ""
      exampleParams exampleExtractMerged (by decide) (by decide)⟩,
    by decide, by decide, by decide, by decide,
    C2_crdList_sorted_by_name.2.1 exampleMarshal (exampleConfig "1.2.3") 0 "" exampleScheme
      [.ok [98], .ok [99], .ok [97, 10, 10]] [.ok [97, 10, 10], .ok [98], .ok [99]]
      exampleExtract exampleExtractOther exampleExtract exampleExtractOther
      exampleParams exampleParamsOther
      (by decide) (by decide) (by decide) (List.Perm.refl _) (List.Perm.refl _)
      (by decide) (by decide)⟩

/-- C3, as stated, fails: the config lists `a` twice, the build succeeds, and the CRD `a` of
`CRDList` does not have the display name and description of the first of the two entries. -/
theorem C3_counterexample :
    ∃ params,
      (buildRenderParams exampleMarshal duplicateConfig 0 exampleExtract "").1 = .ok params ∧
      (⟨"a", "First", "first text"⟩ : ConfigCRD) ∈ duplicateConfig.CRDs ∧
      mapLookup exampleExtract.crds "a" ≠ none ∧
      ∀ crd ∈ params.CRDList, crd.Name = "a" →
        crd.DisplayName ≠ "First" ∧ crd.Description ≠ "first text" :=
  ⟨{ exampleParams with
      CRDList := [
        { Name := "a", Group := "g", Kind := "A", Version := "v1", DisplayName := "Second",
          Description := "second text", Def := [97, 10] },
        { Name := "b", Group := "g", Kind := "B", Version := "v1", DisplayName := "B",
          Description := "about b", Def := [98, 10] }] },
    by decide, by decide, by decide, by decide⟩

/-- C3, amended: when `buildRenderParams` succeeds on an extract keyed by name, then for every
entry `c` of the config that is the last entry of its name and whose name is the name of an
extracted CRD, `CRDList` has a CRD of that name, and every CRD of that name in `CRDList` has
the display name and the description of `c`. -/
theorem C3_metadata_of_last_entry (yaml : Marshal) (conf : config) (packageIndex : Nat)
    (extracts : yamlExtracts) (imageDigest : String) (params : RenderParams) (c : ConfigCRD)
    (hk : KeyedByName extracts.crds)
    (hb : (buildRenderParams yaml conf packageIndex extracts imageDigest).1 = .ok params)
    (hlast : lastEntry conf.CRDs c.Name = some c)
    (hmatch : c.Name ∈ extracts.crds.map Prod.fst) :
    (∃ crd ∈ params.CRDList, crd.Name = c.Name) ∧
      ∀ crd ∈ params.CRDList, crd.Name = c.Name →
        crd.DisplayName = c.DisplayName ∧ crd.Description = c.Description := by
  have h := crdList_of_build yaml conf packageIndex extracts imageDigest params hk hb
  constructor
  · have : c.Name ∈ params.CRDList.map CRD.Name := h.2.1.mem_iff.2 hmatch
    obtain ⟨crd, hcrd, hname⟩ := List.mem_map.1 this
    exact ⟨crd, hcrd, hname⟩
  · intro crd hcrd hname
    have hmem := h.1.mem_iff.1 hcrd
    simp only [List.mem_map] at hmem
    obtain ⟨q, ⟨p, hp, rfl⟩, rfl⟩ := hmem
    have hpname : p.1 = c.Name := by
      rw [hk.2 p hp, ← mergedEntry_name conf.CRDs p]
      exact hname
    exact mergedEntry_metadata conf.CRDs c p (by rw [hpname]; exact hlast)

/-- C3 at a concrete input: in `duplicateConfig` the last entry of `a` is the second one, and
it is its metadata that the CRD `a` of `CRDList` carries. -/
theorem C3_metadata_of_last_entry_witness :
    (∃ params,
      (buildRenderParams exampleMarshal duplicateConfig 0 exampleExtract "").1 = .ok params ∧
      ((∃ crd ∈ params.CRDList, crd.Name = "a") ∧
        ∀ crd ∈ params.CRDList, crd.Name = "a" →
          crd.DisplayName = "Second" ∧ crd.Description = "second text")) ∧
    lastEntry duplicateConfig.CRDs "a" = some ⟨"a", "Second", "second text"⟩ :=
  ⟨⟨{ exampleParams with
      CRDList := [
        { Name := "a", Group := "g", Kind := "A", Version := "v1", DisplayName := "Second",
          Description := "second text", Def := [97, 10] },
        { Name := "b", Group := "g", Kind := "B", Version := "v1", DisplayName := "B",
          Description := "about b", Def := [98, 10] }] },
    by decide,
    C3_metadata_of_last_entry exampleMarshal duplicateConfig 0 exampleExtract "" _
      ⟨"a", "Second", "second text"⟩ (by decide) (by decide) (by decide) (by decide)⟩,
    by decide⟩

/-- C4: a successful `buildRenderParams` on a new version `a.b` or `a.b.rest` (`a` and `b`
without a dot) returns the short version `a.b`; a new version without a dot makes
`buildRenderParams` fail, and with an error value rather than a panic when every webhook has a
service reference; so a successful build has a new version with a dot. -/
theorem C4_short_version (yaml : Marshal) (conf : config) (packageIndex : Nat)
    (extracts : yamlExtracts) (imageDigest : String) :
    (∀ (params : RenderParams) (a b rest : String),
        (buildRenderParams yaml conf packageIndex extracts imageDigest).1 = .ok params →
        conf.NewVersion = a ++ "." ++ b ++ rest →
        '.' ∉ a.data → '.' ∉ b.data → (rest = "" ∨ ∃ r, rest = "." ++ r) →
        params.ShortVersion = a ++ "." ++ b) ∧
    ('.' ∉ conf.NewVersion.data →
        ∃ err, (buildRenderParams yaml conf packageIndex extracts imageDigest).1 = .error err ∧
          ((∀ cfg ∈ extracts.operatorWebhooks, ∀ w ∈ cfg.Webhooks,
              w.ClientConfig.Service ≠ none) → ∀ p, err ≠ .panic p)) ∧
    (∀ params : RenderParams,
        (buildRenderParams yaml conf packageIndex extracts imageDigest).1 = .ok params →
        '.' ∈ conf.NewVersion.data ∧ 2 ≤ (Split conf.NewVersion '.').length) := by
  have key : ∀ params : RenderParams,
      (buildRenderParams yaml conf packageIndex extracts imageDigest).1 = .ok params →
      '.' ∈ conf.NewVersion.data ∧ 2 ≤ (Split conf.NewVersion '.').length := by
    intro params hb
    have h := (assembleRenderParams_ok _ _ _ _ _ _ _ (buildRenderParams_ok _ _ _ _ _ _ hb)).2.1
    refine ⟨?_, h⟩
    by_contra hdot
    rw [Split_length_of_not_mem _ _ hdot] at h
    omega
  refine ⟨?_, ?_, key⟩
  · intro params a b rest hb hv ha hbb hrest
    have h := (assembleRenderParams_ok _ _ _ _ _ _ _ (buildRenderParams_ok _ _ _ _ _ _ hb)).2.2.1
    rw [h, hv]
    exact Split_two a b rest ha hbb hrest
  · intro hdot
    rw [buildRenderParams_fst]
    split
    · exact ⟨_, rfl, fun _ p hp => by cases hp⟩
    · by_cases hservice : ∀ cfg ∈ extracts.operatorWebhooks, ∀ w ∈ cfg.Webhooks,
          w.ClientConfig.Service ≠ none
      · rcases assembleRenderParams_no_dot yaml conf packageIndex
            { extracts with crds := conf.CRDs.foldl applyConfigCRD extracts.crds } imageDigest
            (sortSlice (fun a b => strLE a.Name b.Name)
              ((conf.CRDs.foldl applyConfigCRD extracts.crds).map Prod.snd))
            hdot hservice with ⟨cause, h⟩ | h
        · exact ⟨_, h, fun _ p hp => by cases hp⟩
        · exact ⟨_, h, fun _ p hp => by cases hp⟩
      · cases hr : assembleRenderParams yaml conf packageIndex
            { extracts with crds := conf.CRDs.foldl applyConfigCRD extracts.crds } imageDigest
            (sortSlice (fun a b => strLE a.Name b.Name)
              ((conf.CRDs.foldl applyConfigCRD extracts.crds).map Prod.snd)) with
        | error err => exact ⟨err, rfl, fun h => absurd h hservice⟩
        | ok params =>
          have h := (assembleRenderParams_ok _ _ _ _ _ _ _ hr).2.1
          rw [Split_length_of_not_mem _ _ hdot] at h
          omega

/-- C4 at concrete inputs: "1.2.3" gives the short version "1.2", and "1" fails with the
error on the new version. -/
theorem C4_short_version_witness :
    (buildRenderParams exampleMarshal (exampleConfig "1.2.3") 0 exampleExtract "").1 =
        .ok exampleParams ∧
      exampleParams.ShortVersion = "1" ++ "." ++ "2" ∧
      (∃ err, (buildRenderParams exampleMarshal (exampleConfig "1") 0 exampleExtract "").1 =
        .error err) :=
  ⟨by decide,
    (C4_short_version exampleMarshal (exampleConfig "1.2.3") 0 exampleExtract "").1
      exampleParams "1" "2" ".3" (by decide) (by decide) (by decide) (by decide)
      (Or.inr ⟨"3", by decide⟩),
    (((C4_short_version exampleMarshal (exampleConfig "1") 0 exampleExtract "").2.1
      (by decide)).imp fun _ h => h.1)⟩

/-- C5, as stated, fails: for a configuration whose single webhook is reached by URL the
function panics on the nil service reference and returns no definition. -/
theorem C5_counterexample :
    validatingWebhookConfigurationToWebhookDefinition
        { Name := "elastic-webhook.k8s.elastic.co", Webhooks := [urlWebhook] } =
      .error .nilDereference := by
  decide

/-- C5, amended: for every ValidatingWebhookConfiguration all of whose webhooks have a service
reference, the function returns one definition per webhook, in the order of the webhooks, each
with target port 9443, container port 443, match policy "Exact", deployment name
"elastic-operator", the failure policy, side effects, rules and admission review versions of
its webhook, and the path of the webhook's service reference. -/
theorem C5_webhook_definitions (webhookConfiguration : ValidatingWebhookConfiguration)
    (hservice : ∀ w ∈ webhookConfiguration.Webhooks, w.ClientConfig.Service ≠ none) :
    ∃ defs,
      validatingWebhookConfigurationToWebhookDefinition webhookConfiguration = .ok defs ∧
      defs.length = webhookConfiguration.Webhooks.length ∧
      List.Forall₂ DefinitionOf webhookConfiguration.Webhooks defs := by
  obtain ⟨defs, hdefs, hall⟩ :=
    foldlM_appendWebhookDefinition webhookConfiguration.Webhooks [] hservice
  refine ⟨defs, ?_, hall.length_eq.symm, hall⟩
  unfold validatingWebhookConfigurationToWebhookDefinition
  rw [hdefs]
  simp

/-- C5 at a concrete input: a configuration with two webhooks gives two definitions. -/
theorem C5_webhook_definitions_witness :
    (∀ w ∈ [exampleWebhook "first" "/validate-first", exampleWebhook "second" "/validate-second"],
        w.ClientConfig.Service ≠ none) ∧
    ∃ defs,
      validatingWebhookConfigurationToWebhookDefinition
        { Name := "elastic-webhook.k8s.elastic.co"
          Webhooks := [exampleWebhook "first" "/validate-first",
            exampleWebhook "second" "/validate-second"] } = .ok defs ∧
      defs.length = 2 ∧
      List.Forall₂ DefinitionOf
        [exampleWebhook "first" "/validate-first", exampleWebhook "second" "/validate-second"]
        defs :=
  ⟨by decide,
    C5_webhook_definitions
      { Name := "elastic-webhook.k8s.elastic.co"
        Webhooks := [exampleWebhook "first" "/validate-first",
          exampleWebhook "second" "/validate-second"] }
      (by decide)⟩

/-- C6: after a response with status 200 whose body decodes, `getImageDigest` decides on the
data list: one entry with a non-empty digest gives that digest; no entry gives the "no image
with tag" error; two or more entries give the "found N images" error with N the number of
entries; one entry with an empty digest gives the "digest is empty" error; a digest is
returned in the first case only and is never empty. -/
theorem C6_digest_of_data_list
    (client : String → String → String → Except String CatalogResponse)
    (apiKey projectId version : String) (res : CatalogResponse) (images : Images)
    (hres : client (ImagesEndpoint projectId) apiKey
      ("repositories.tags.name==" ++ version ++ ";deleted==false") = .ok res)
    (hstatus : res.StatusCode = 200) (hbody : res.Body = .ok images) :
    (∀ image, images.Data = [image] → image.DockerImageDigest ≠ "" →
        getImageDigest client apiKey projectId version = .ok image.DockerImageDigest) ∧
    (images.Data = [] →
        getImageDigest client apiKey projectId version = .error (.noImage version)) ∧
    (2 ≤ images.Data.length →
        getImageDigest client apiKey projectId version =
          .error (.foundImages images.Data.length version)) ∧
    (∀ image, images.Data = [image] → image.DockerImageDigest = "" →
        getImageDigest client apiKey projectId version = .error (.emptyDigest version)) ∧
    (∀ digest, getImageDigest client apiKey projectId version = .ok digest →
        digest ≠ "" ∧ ∃ image, images.Data = [image] ∧ image.DockerImageDigest = digest) := by
  have hrun : getImageDigest client apiKey projectId version =
      if images.Data.length > 1 then .error (.foundImages images.Data.length version) else
      if h : images.Data.length = 0 then .error (.noImage version) else
      if (images.Data.get ⟨0, Nat.pos_of_ne_zero h⟩).DockerImageDigest = "" then
        .error (.emptyDigest version)
      else .ok (images.Data.get ⟨0, Nat.pos_of_ne_zero h⟩).DockerImageDigest := by
    simp only [getImageDigest, hres, hstatus, hbody, ne_eq, not_true_eq_false, if_false]
  rw [hrun]
  rcases hdata : images.Data with _ | ⟨image, _ | ⟨second, rest⟩⟩
  · simp
  · by_cases hd : image.DockerImageDigest = ""
    · simp [hd]
    · simp [hd]
  · simp

/-- C6 at concrete inputs: one entry with a digest, no entry, two entries, and one entry
without a digest. -/
theorem C6_digest_of_data_list_witness :
    getImageDigest (exampleCatalog [⟨"sha256:0a1b", "id-1", "2024-01-01"⟩]) "key" "project"
        "1.2.3" = .ok "sha256:0a1b" ∧
      getImageDigest (exampleCatalog []) "key" "project" "1.2.3" = .error (.noImage "1.2.3") ∧
      getImageDigest
          (exampleCatalog [⟨"sha256:0a1b", "id-1", "2024-01-01"⟩, ⟨"", "id-2", "2024-01-02"⟩])
          "key" "project" "1.2.3" = .error (.foundImages 2 "1.2.3") ∧
      getImageDigest (exampleCatalog [⟨"", "id-2", "2024-01-02"⟩]) "key" "project" "1.2.3" =
        .error (.emptyDigest "1.2.3") :=
  ⟨(C6_digest_of_data_list (exampleCatalog [⟨"sha256:0a1b", "id-1", "2024-01-01"⟩]) "key"
      "project" "1.2.3" _ _ rfl rfl rfl).1 _ rfl (by decide),
    (C6_digest_of_data_list (exampleCatalog []) "key" "project" "1.2.3" _ _ rfl rfl rfl).2.1 rfl,
    (C6_digest_of_data_list
      (exampleCatalog [⟨"sha256:0a1b", "id-1", "2024-01-01"⟩, ⟨"", "id-2", "2024-01-02"⟩])
      "key" "project" "1.2.3" _ _ rfl rfl rfl).2.2.1 (by decide),
    (C6_digest_of_data_list (exampleCatalog [⟨"", "id-2", "2024-01-02"⟩]) "key" "project"
      "1.2.3" _ _ rfl rfl rfl).2.2.2.1 _ rfl rfl⟩

/-- C7: when `buildRenderParams` succeeds for a package, `Tag` is ":" followed by the new
version if the package does not request digest pinning and "@" followed by the image digest
if it does; without digest pinning a build with any other image digest has the same tag. -/
theorem C7_tag (yaml : Marshal) (conf : config) (packageIndex : Nat) (extracts : yamlExtracts)
    (imageDigest otherDigest : String) (params other : RenderParams) (pkg : ConfigPackage)
    (hpkg : conf.Packages[packageIndex]? = some pkg)
    (hb : (buildRenderParams yaml conf packageIndex extracts imageDigest).1 = .ok params)
    (ho : (buildRenderParams yaml conf packageIndex extracts otherDigest).1 = .ok other) :
    params.Tag = (if pkg.DigestPinning then "@" ++ imageDigest else ":" ++ conf.NewVersion) ∧
      other.Tag = (if pkg.DigestPinning then "@" ++ otherDigest else params.Tag) := by
  obtain ⟨p, hp, htag⟩ :=
    (assembleRenderParams_ok _ _ _ _ _ _ _ (buildRenderParams_ok _ _ _ _ _ _ hb)).2.2.2
  obtain ⟨q, hq, htag'⟩ :=
    (assembleRenderParams_ok _ _ _ _ _ _ _ (buildRenderParams_ok _ _ _ _ _ _ ho)).2.2.2
  rw [hpkg] at hp hq
  injection hp with hp
  injection hq with hq
  subst hp hq
  refine ⟨htag, ?_⟩
  rw [htag', htag]
  by_cases h : pkg.DigestPinning = true <;> simp [h]

/-- C7 at concrete inputs: package 0 has no digest pinning and the tag ":1.2.3" with either
digest; package 1 has digest pinning and the tag "@sha256:0a1b". -/
theorem C7_tag_witness :
    ((buildRenderParams exampleMarshal (exampleConfig "1.2.3") 0 exampleExtract "sha256:0a1b").1 =
        .ok exampleParams ∧
      (buildRenderParams exampleMarshal (exampleConfig "1.2.3") 0 exampleExtract "").1 =
        .ok exampleParams ∧
      exampleParams.Tag = ":1.2.3") ∧
    ((buildRenderParams exampleMarshal (exampleConfig "1.2.3") 1 exampleExtract "sha256:0a1b").1 =
        .ok exampleParamsPinned ∧
      exampleParamsPinned.Tag = "@" ++ "sha256:0a1b") :=
  ⟨⟨by decide, by decide,
    (C7_tag exampleMarshal (exampleConfig "1.2.3") 0 exampleExtract "sha256:0a1b" ""
      exampleParams exampleParams _ rfl (by decide) (by decide)).1⟩,
    by decide,
    (C7_tag exampleMarshal (exampleConfig "1.2.3") 1 exampleExtract "sha256:0a1b" "sha256:0a1b"
      exampleParamsPinned exampleParamsPinned _ rfl (by decide) (by decide)).1⟩

/-- C8: for a stream whose documents are all read and decoded (to the objects `objs`), the
RBAC rule set of the extract returned by `extractYAMLParts` is the rule list of the last
ClusterRole named "elastic-operator" of the stream, and empty when there is none; a document
that is not such a ClusterRole leaves the rule set as it is.  The extract is returned exactly
when no current-schema CRD of the stream has an empty list of versions. -/
theorem C8_operator_rbac (scheme : Scheme) (stream : List (Except String Bytes))
    (objs : List RuntimeObject)
    (hreg₁ : scheme.addApiextV1beta1 = .ok ()) (hreg₂ : scheme.addApiextV1 = .ok ())
    (hreg₃ : scheme.addAdmissionV1 = .ok ())
    (hdec : List.Forall₂ (fun item obj => decoded scheme item = some obj) stream objs) :
    (∀ parts, extractYAMLParts scheme stream = .ok parts →
        parts.operatorRBAC = lastOperatorRules objs) ∧
    (∀ parts before after rules, extractYAMLParts scheme stream = .ok parts →
        objs = before ++ .clusterRole operatorName rules :: after →
        (∀ o ∈ after, operatorRules? o = none) → parts.operatorRBAC = rules) ∧
    (∀ parts, extractYAMLParts scheme stream = .ok parts →
        (∀ o ∈ objs, operatorRules? o = none) → parts.operatorRBAC = []) ∧
    ((∃ parts, extractYAMLParts scheme stream = .ok parts) ↔
        ∀ obj ∈ objs, hasVersion obj = true) ∧
    (∀ parts yamlBytes obj parts', operatorRules? obj = none →
        extractObject parts yamlBytes obj = .ok parts' →
        parts'.operatorRBAC = parts.operatorRBAC) := by
  have hrun : extractYAMLParts scheme stream =
      extractLoop scheme { crds := [], operatorRBAC := [], operatorWebhooks := [] } stream := by
    simp only [extractYAMLParts, hreg₁, hreg₂, hreg₃]
  obtain ⟨h1, h2⟩ := extractLoop_rbac scheme stream objs
    { crds := [], operatorRBAC := [], operatorWebhooks := [] } hdec
  rw [hrun]
  have key : ∀ parts,
      extractLoop scheme { crds := [], operatorRBAC := [], operatorWebhooks := [] } stream =
        .ok parts → parts.operatorRBAC = lastOperatorRules objs := fun parts hp => h1 parts hp
  refine ⟨key, ?_, ?_, h2, ?_⟩
  · intro parts before after rules hp hobjs hafter
    rw [key parts hp, hobjs]
    exact lastOperatorRules_append_role before after rules hafter
  · intro parts hp hnone
    rw [key parts hp]
    exact lastOperatorRules_of_none objs hnone
  · intro parts yamlBytes obj parts' hnone ho
    rw [extractObject_rbac parts parts' yamlBytes obj ho, hnone]
    rfl

/-- C8 at a concrete input: two ClusterRoles named "elastic-operator" with a ClusterRole of
another name, a CRD and a Deployment around them; the rule set is that of the second. -/
theorem C8_operator_rbac_witness :
    List.Forall₂ (fun item obj => decoded exampleScheme item = some obj) roleStream roleObjects ∧
      extractYAMLParts exampleScheme roleStream = .ok roleExtract ∧
      roleExtract.operatorRBAC = [⟨["*"], ["apps"], ["deployments"], [], []⟩] :=
  ⟨by repeat' constructor,
    by decide,
    (C8_operator_rbac exampleScheme roleStream roleObjects rfl rfl rfl
        (by repeat' constructor)).2.1 roleExtract
      [.clusterRole "elastic-operator" [⟨["get"], [""], ["pods"], [], []⟩],
        .crdV1 "b" "g" "B" ["v1", "v1beta1"]]
      [.clusterRole "elastic-operator-view" [⟨["list"], [""], ["nodes"], [], []⟩],
        .other "Deployment"]
      [⟨["*"], ["apps"], ["deployments"], [], []⟩]
      (by decide) rfl (by decide)⟩

/-- C9, as stated, fails: a successful call and a failing call both leave an extract that
differs from the one they were given (the display name and description of `a`, or of `a` and
`b`, are now those of the config). -/
theorem C9_counterexample :
    ((buildRenderParams exampleMarshal (exampleConfig "1.2.3") 0 exampleExtract "").1 =
        .ok exampleParams ∧
      (buildRenderParams exampleMarshal (exampleConfig "1.2.3") 0 exampleExtract "").2 =
        exampleExtractMerged ∧
      exampleExtractMerged ≠ exampleExtract) ∧
    ((buildRenderParams exampleMarshal
        { exampleConfig "1.2.3" with CRDs := [⟨"a", "A", "about a"⟩] } 0 exampleExtract "").1 =
        .error (.missingDescriptions ["b"]) ∧
      (buildRenderParams exampleMarshal
        { exampleConfig "1.2.3" with CRDs := [⟨"a", "A", "about a"⟩] } 0 exampleExtract "").2 ≠
        exampleExtract) := by
  decide

/-- C9, amended: whether it succeeds or fails, `buildRenderParams` leaves the RBAC rule set
and the webhook configuration list of the extract unchanged, and leaves the CRD map with the
same entries in the same order, each CRD with its name, group, kind, version and raw bytes
unchanged; the display name and description of a CRD are unchanged when no config entry has
its name, and are those of the last config entry of its name otherwise. -/
theorem C9_extract_after_build (yaml : Marshal) (conf : config) (packageIndex : Nat)
    (extracts : yamlExtracts) (imageDigest : String)
    (hmap : (extracts.crds.map Prod.fst).Nodup) :
    (buildRenderParams yaml conf packageIndex extracts imageDigest).2.operatorRBAC =
        extracts.operatorRBAC ∧
      (buildRenderParams yaml conf packageIndex extracts imageDigest).2.operatorWebhooks =
        extracts.operatorWebhooks ∧
      List.Forall₂ (LeftBehind conf.CRDs) extracts.crds
        (buildRenderParams yaml conf packageIndex extracts imageDigest).2.crds := by
  rw [buildRenderParams_snd, foldl_applyConfigCRD _ _ hmap]
  exact ⟨rfl, rfl, forall₂_map_right _ _ _ (leftBehind_mergedEntry conf.CRDs)⟩

/-- C9 at a concrete input: after the failing call with a config that describes `a` only,
`a` has the metadata of the config and `b` is as it was. -/
theorem C9_extract_after_build_witness :
    (exampleExtract.crds.map Prod.fst).Nodup ∧
      List.Forall₂ (LeftBehind [⟨"a", "A", "about a"⟩]) exampleExtract.crds
        (buildRenderParams exampleMarshal
          { exampleConfig "1.2.3" with CRDs := [⟨"a", "A", "about a"⟩] } 0 exampleExtract "").2.crds ∧
      (buildRenderParams exampleMarshal
          { exampleConfig "1.2.3" with CRDs := [⟨"a", "A", "about a"⟩] } 0 exampleExtract "").2.crds =
        [("b", { Name := "b", Group := "g", Kind := "B", Version := "v1", DisplayName := "",
                 Description := "", Def := [98, 10] }),
         ("a", { Name := "a", Group := "g", Kind := "A", Version := "v1", DisplayName := "A",
                 Description := "about a", Def := [97, 10] })] :=
  ⟨by decide,
    (C9_extract_after_build exampleMarshal
      { exampleConfig "1.2.3" with CRDs := [⟨"a", "A", "about a"⟩] } 0 exampleExtract ""
      (by decide)).2.2,
    by decide⟩

/-- C10, as stated, fails: for the two files the stream ends with a separator after the
content of the last file, so it is not the contents with the separator between them. -/
theorem C10_counterexample :
    getInstallManifestStream exampleFiles noNetwork (exampleConfig "1.2.3")
        ["crds.yaml", "operator.yaml"] =
      .ok ([97, 10] ++ utf8Bytes "---\n" ++ [114, 10] ++ utf8Bytes "---\n") ∧
    getInstallManifestStream exampleFiles noNetwork (exampleConfig "1.2.3")
        ["crds.yaml", "operator.yaml"] ≠
      .ok ([97, 10] ++ utf8Bytes "---\n" ++ [114, 10]) := by
  decide

/-- C10, amended: for a non-empty list of manifest files that can all be opened, the stream
is the contents of the files in the given order, the document separator "---\n" appended after
the content of every file, the last one included. -/
theorem C10_manifest_stream (osOpen : String → Except String Bytes)
    (get : String → Except String HTTPResponse) (conf : config) (manifestPaths : List String)
    (contents : List Bytes) (hne : manifestPaths ≠ [])
    (hopen : List.Forall₂ (fun p c => osOpen p = .ok c) manifestPaths contents) :
    getInstallManifestStream osOpen get conf manifestPaths =
      .ok ((contents.map (fun c => c ++ utf8Bytes "---\n")).flatten) := by
  have hlen : ¬ manifestPaths.length = 0 := fun h => hne (List.length_eq_zero.1 h)
  simp only [getInstallManifestStream, hlen, if_false,
    foldlM_openManifest osOpen manifestPaths manifestPaths contents [] hopen]
  congr 1
  simp only [List.nil_append, yamlSeparator]
  clear hopen
  induction contents with
  | nil => rfl
  | cons c cs ih =>
    simp only [List.map_cons, List.flatten_cons, List.flatten_append, ih]
    simp

/-- C10 at a concrete input: the stream of `crds.yaml` and `operator.yaml`. -/
theorem C10_manifest_stream_witness :
    List.Forall₂ (fun p c => exampleFiles p = .ok c) ["crds.yaml", "operator.yaml"]
        [[97, 10], [114, 10]] ∧
      getInstallManifestStream exampleFiles noNetwork (exampleConfig "1.2.3")
          ["crds.yaml", "operator.yaml"] =
        .ok [97, 10, 45, 45, 45, 10, 114, 10, 45, 45, 45, 10] :=
  ⟨by repeat' constructor,
    C10_manifest_stream exampleFiles noNetwork (exampleConfig "1.2.3")
      ["crds.yaml", "operator.yaml"] [[97, 10], [114, 10]] (by decide)
      (by repeat' constructor)⟩

/-- C11: `normalizeTrailingNewlines b` is `b` without its trailing newline bytes, followed by
one newline: `b` is a body that does not end in a newline followed by newlines only, and,
however `b` is written so, the result is that body followed by one newline.  So the last byte of the result is a newline,
the byte before it, when there is one, is not a newline, and normalizing twice is normalizing
once. -/
theorem C11_normalize_trailing_newlines (b : Bytes) :
    (∃ body k, b = body ++ List.replicate k 10 ∧
        (∀ h : body ≠ [], body.getLast h ≠ 10) ∧
        normalizeTrailingNewlines b = body ++ [10]) ∧
      (∀ body k, b = body ++ List.replicate k 10 →
        (∀ h : body ≠ [], body.getLast h ≠ 10) →
        normalizeTrailingNewlines b = body ++ [10]) ∧
      (normalizeTrailingNewlines b).getLast? = some 10 ∧
      (1 < (normalizeTrailingNewlines b).length →
        ∃ x, (normalizeTrailingNewlines b)[(normalizeTrailingNewlines b).length - 2]? = some x ∧
          x ≠ 10) ∧
      normalizeTrailingNewlines (normalizeTrailingNewlines b) = normalizeTrailingNewlines b := by
  obtain ⟨k, hk⟩ := rdropWhile_newline_append b
  have hlast := rdropWhile_newline_last b
  have hrun : normalizeTrailingNewlines b = b.rdropWhile (fun x => x == 10) ++ [10] := rfl
  refine ⟨⟨_, k, hk, hlast, hrun⟩, ?_, ?_, ?_, ?_⟩
  · intro body n hb hbody
    rw [hrun, hb, rdropWhile_newline_of_body body n hbody]
  · rw [hrun]
    simp
  · rw [hrun]
    intro hlen
    have hne : b.rdropWhile (fun x => x == 10) ≠ [] := by
      intro h
      rw [h] at hlen
      simp at hlen
    refine ⟨_, ?_, hlast hne⟩
    have hpos : 0 < (b.rdropWhile (fun x => x == 10)).length := List.length_pos.2 hne
    rw [List.length_append, List.length_singleton,
      List.getElem?_append_left (by omega), List.getLast_eq_getElem]
    have : (b.rdropWhile (fun x => x == 10)).length + 1 - 2 =
        (b.rdropWhile (fun x => x == 10)).length - 1 := by omega
    rw [this, List.getElem?_eq_getElem]
  · rw [hrun]
    show List.rdropWhile (fun x => x == 10) (b.rdropWhile (fun x => x == 10) ++ [10]) ++ [10] = _
    rw [List.rdropWhile_concat_pos _ _ _ (by simp), List.rdropWhile_idempotent]

/-- C11 at concrete inputs: three trailing newlines become one, a document without a newline
gets one, and a document of newlines only becomes a single newline. -/
theorem C11_normalize_trailing_newlines_witness :
    normalizeTrailingNewlines [97, 10, 98, 10, 10, 10] = [97, 10, 98, 10] ∧
      normalizeTrailingNewlines [97, 10, 98] = [97, 10, 98, 10] ∧
      normalizeTrailingNewlines [10, 10] = [10] ∧
      normalizeTrailingNewlines [] = [10] ∧
      normalizeTrailingNewlines (normalizeTrailingNewlines [97, 10, 98, 10, 10, 10]) =
        normalizeTrailingNewlines [97, 10, 98, 10, 10, 10] :=
  ⟨by decide, by decide, by decide, by decide,
    (C11_normalize_trailing_newlines [97, 10, 98, 10, 10, 10]).2.2.2.2⟩

end OperatorHub
